import Mathlib

/-!
Shallow embedding of the kai-site / Kaik chess core (bitboard position
representation and pseudo-legal move generator).

Sources embedded from `src/`:
  - `src/bitboard.rs`   : the 64-bit set primitive (`BitBoard`)
  - `src/common/squares.rs` : the `Square` coordinate
  - `src/pieces.rs`     : the `Piece` identity
  - `src/board.rs`      : the `Board` state, FEN encode/decode glue,
                          `update_by_move`
  - `src/board/move_gen.rs` : `generate_moves_for` / `generate_moves`

Machine integers (`u64`) are modelled as `Nat`; the bitwise operations
(`&&&`, `|||`, `^^^`, `<<<`) used by the source never overflow a `u64`
when their inputs are below `2 ^ 64`, which is carried as an explicit
hypothesis where a theorem needs it.  Fallible operations (Rust `panic!`,
`unimplemented!`, `assert!`, `TryFrom` errors) are modelled with `Option`.

Code of the repository that is referenced but absent from `src/` (the
`fen`, `moves`, `movements`, `constants` modules, the `Color` type and
several `BitBoard` helper methods) is modelled from the spec; each such
definition carries a doc comment starting with `Modelled from the spec:`.
-/

/-- A bit-set is a 64-bit unsigned value (`src/bitboard.rs`, `BitBoard(pub u64)`);
bit *i* means square *i* is a member. Modelled as `Nat`. -/
abbrev BitBoard := Nat

/-- All 64 bits set: the value range of a `u64` is `[0, MASK64]`. -/
def MASK64 : Nat := 2 ^ 64 - 1

namespace BitBoard

/-- `BitBoard::EMPTY` (`src/bitboard.rs` line 11). -/
def EMPTY : BitBoard := 0

/-- `BitBoard::is_set` (`src/bitboard.rs` lines 13-15): `self.0 & (1 << index) != 0`. -/
def is_set (b : BitBoard) (index : Nat) : Bool := b &&& (1 <<< index) != 0

/-- `BitBoard::set` (`src/bitboard.rs` lines 17-19): `self.0 |= 1 << index`. -/
def set (b : BitBoard) (index : Nat) : BitBoard := b ||| (1 <<< index)

/-- Modelled from the spec: index-of-lowest-set-bit (`get_index`, §4.1
"index-of-lowest-set-bit (undefined/empty result on an empty set)"); the
method is absent from `src/`.  On 0 we return 0.  The `fuel` argument makes
the recursion structural (any `fuel ≥ n` computes the same value). -/
def ctzF : Nat → Nat → Nat
  | 0, _ => 0
  | fuel + 1, n =>
    if n = 0 then 0
    else if n % 2 = 1 then 0
    else ctzF fuel (n / 2) + 1

/-- Modelled from the spec (§4.1): index of the lowest set bit. -/
def ctz (n : Nat) : Nat := ctzF n n

/-- Modelled from the spec (§4.1): index-of-lowest-set-bit, used by the
generator as `get_index` to turn a singleton bit-set into a square index. -/
def get_index (b : BitBoard) : Nat := ctz b

/-- Modelled from the spec (§4.1): "lowest-set-bit as a singleton set". -/
def get_ls1b (b : BitBoard) : BitBoard := if b = 0 then 0 else 1 <<< ctz b

/-- Modelled from the spec (§4.1): "clear-lowest-set-bit"; the standard
`b & (b - 1)` formulation, a no-op on the empty set. -/
def reset_ls1b (b : BitBoard) : BitBoard := b &&& (b - 1)

/-- Modelled from the spec (§4.1): empty-test. -/
def is_zero (b : BitBoard) : Bool := b == 0

/-- Modelled from the spec (§4.4): the capture test "flag capture when the
destination intersects the opponent's aggregate"; `contains` is called with a
singleton destination set. -/
def contains (b other : BitBoard) : Bool := b &&& other != 0

end BitBoard

/-- Rust `slice::chunks(8)` as used by `From<&str> for BitBoard`
(`src/bitboard.rs` line 55): splits a list into consecutive chunks of
eight (the last chunk may be shorter). -/
def chunks8F {α : Type} : Nat → List α → List (List α)
  | 0, _ => []
  | _, [] => []
  | fuel + 1, x :: xs => (x :: xs).take 8 :: chunks8F fuel (xs.drop 7)

/-- Rust `slice::chunks(8)`, entry point (`fuel := length` suffices since
every step consumes at least one element). -/
def chunks8 {α : Type} (l : List α) : List (List α) := chunks8F l.length l

/-- The inner fold of `From<&str> for BitBoard` (`src/bitboard.rs` lines 57-59):
`line.iter().enumerate().fold(0, |acc, (f, b)| acc + (b << f))`. -/
def lineVal (line : List Nat) : Nat :=
  line.enum.foldl (fun acc p => acc + (p.2 <<< p.1)) 0

/-- The chunk/map/rev/fold pipeline of `From<&str> for BitBoard`
(`src/bitboard.rs` lines 54-63), acting on the already-filtered 0/1 symbols. -/
def packBits (l : List Nat) : Nat :=
  (((chunks8 l).map lineVal).reverse.enum.foldl
    (fun acc p => acc + (p.2 <<< (p.1 * 8))) 0)

/-- The 0/1 filter of `From<&str> for BitBoard` (`src/bitboard.rs` lines 45-52). -/
def zeroOne (c : Char) : Option Nat :=
  if c = '0' then some 0 else if c = '1' then some 1 else none

/-- `From<&str> for BitBoard` (`src/bitboard.rs` lines 41-66).  The Rust code
asserts that exactly 64 0/1 symbols remain after filtering; the panic is
modelled as `none`. -/
def BitBoard.from_str (s : String) : Option BitBoard :=
  let filtered := s.toList.filterMap zeroOne
  if filtered.length = 64 then some (packBits filtered) else none

/-- The `Square` enumeration (`src/common/squares.rs` lines 9-18): `A1 = 0`
through `H8 = 63`, rank-major. -/
abbrev Square := Fin 64

namespace Square

/-- `Square::get_rank` (`src/common/squares.rs` lines 101-103): `self as usize / 8 + 1`. -/
def get_rank (s : Square) : Nat := s.val / 8 + 1

/-- `Square::get_file` (`src/common/squares.rs` lines 105-107):
`(self as u8 % 8 + b'a') as char`. -/
def get_file (s : Square) : Char := Char.ofNat (s.val % 8 + 97)

/-- `Display for Square` (`src/common/squares.rs` lines 110-114): file letter
followed by rank digit. -/
def text (s : Square) : String := String.mk [s.get_file] ++ toString s.get_rank

end Square

/-- Rust `str::to_uppercase` as used by `Square::try_from`
(`src/common/squares.rs` line 30); ASCII case mapping. -/
def upperStr (s : String) : String := String.mk (s.toList.map Char.toUpper)

/-- `TryFrom<&str> for Square` (`src/common/squares.rs` lines 26-98):
a 64-way match on the upper-cased input; the `Err` branch is modelled
as `none`. -/
def Square.try_from (v : String) : Option Square :=
  let u := upperStr v
  if u = "A1" then some 0 else
  if u = "B1" then some 1 else
  if u = "C1" then some 2 else
  if u = "D1" then some 3 else
  if u = "E1" then some 4 else
  if u = "F1" then some 5 else
  if u = "G1" then some 6 else
  if u = "H1" then some 7 else
  if u = "A2" then some 8 else
  if u = "B2" then some 9 else
  if u = "C2" then some 10 else
  if u = "D2" then some 11 else
  if u = "E2" then some 12 else
  if u = "F2" then some 13 else
  if u = "G2" then some 14 else
  if u = "H2" then some 15 else
  if u = "A3" then some 16 else
  if u = "B3" then some 17 else
  if u = "C3" then some 18 else
  if u = "D3" then some 19 else
  if u = "E3" then some 20 else
  if u = "F3" then some 21 else
  if u = "G3" then some 22 else
  if u = "H3" then some 23 else
  if u = "A4" then some 24 else
  if u = "B4" then some 25 else
  if u = "C4" then some 26 else
  if u = "D4" then some 27 else
  if u = "E4" then some 28 else
  if u = "F4" then some 29 else
  if u = "G4" then some 30 else
  if u = "H4" then some 31 else
  if u = "A5" then some 32 else
  if u = "B5" then some 33 else
  if u = "C5" then some 34 else
  if u = "D5" then some 35 else
  if u = "E5" then some 36 else
  if u = "F5" then some 37 else
  if u = "G5" then some 38 else
  if u = "H5" then some 39 else
  if u = "A6" then some 40 else
  if u = "B6" then some 41 else
  if u = "C6" then some 42 else
  if u = "D6" then some 43 else
  if u = "E6" then some 44 else
  if u = "F6" then some 45 else
  if u = "G6" then some 46 else
  if u = "H6" then some 47 else
  if u = "A7" then some 48 else
  if u = "B7" then some 49 else
  if u = "C7" then some 50 else
  if u = "D7" then some 51 else
  if u = "E7" then some 52 else
  if u = "F7" then some 53 else
  if u = "G7" then some 54 else
  if u = "H7" then some 55 else
  if u = "A8" then some 56 else
  if u = "B8" then some 57 else
  if u = "C8" then some 58 else
  if u = "D8" then some 59 else
  if u = "E8" then some 60 else
  if u = "F8" then some 61 else
  if u = "G8" then some 62 else
  if u = "H8" then some 63 else
  none

/-- `From<Square> for BitBoard` (`src/bitboard.rs` lines 68-72):
`1 << u8::from(square)`. -/
def BitBoard.from_square (s : Square) : BitBoard := 1 <<< s.val

/-- The `Piece` enumeration (`src/pieces.rs` lines 6-19); the declaration
order is load-bearing (even ordinals are white). -/
inductive Piece where
  | WhitePawn | BlackPawn
  | WhiteKnight | BlackKnight
  | WhiteBishop | BlackBishop
  | WhiteRook | BlackRook
  | WhiteQueen | BlackQueen
  | WhiteKing | BlackKing
deriving DecidableEq, Repr

namespace Piece

/-- Rust `Piece as usize` (the `#[repr(u8)]` discriminant, `src/pieces.rs`). -/
def index : Piece → Fin 12
  | WhitePawn => 0 | BlackPawn => 1
  | WhiteKnight => 2 | BlackKnight => 3
  | WhiteBishop => 4 | BlackBishop => 5
  | WhiteRook => 6 | BlackRook => 7
  | WhiteQueen => 8 | BlackQueen => 9
  | WhiteKing => 10 | BlackKing => 11

/-- The inverse of the discriminant, used for array indexing. -/
def of_index : Fin 12 → Piece
  | 0 => WhitePawn | 1 => BlackPawn
  | 2 => WhiteKnight | 3 => BlackKnight
  | 4 => WhiteBishop | 5 => BlackBishop
  | 6 => WhiteRook | 7 => BlackRook
  | 8 => WhiteQueen | 9 => BlackQueen
  | 10 => WhiteKing | 11 => BlackKing

/-- `TryFrom<char> for Piece` (`src/pieces.rs` lines 21-41); `Err` is `none`. -/
def try_from : Char → Option Piece
  | 'P' => some WhitePawn | 'p' => some BlackPawn
  | 'N' => some WhiteKnight | 'n' => some BlackKnight
  | 'B' => some WhiteBishop | 'b' => some BlackBishop
  | 'R' => some WhiteRook | 'r' => some BlackRook
  | 'Q' => some WhiteQueen | 'q' => some BlackQueen
  | 'K' => some WhiteKing | 'k' => some BlackKing
  | _ => none

/-- `From<Piece> for char` (`src/pieces.rs` lines 43-60). -/
def to_char : Piece → Char
  | WhitePawn => 'P' | BlackPawn => 'p'
  | WhiteKnight => 'N' | BlackKnight => 'n'
  | WhiteBishop => 'B' | BlackBishop => 'b'
  | WhiteRook => 'R' | BlackRook => 'r'
  | WhiteQueen => 'Q' | BlackQueen => 'q'
  | WhiteKing => 'K' | BlackKing => 'k'

/-- Modelled from the spec (§4.2 decode: "for each of the 12 piece
identities"): the fixed list of the 12 identities in declaration order;
`Piece::ALL_PIECES` is referenced by `board.rs` but absent from `src/`. -/
def ALL_PIECES : List Piece :=
  [WhitePawn, BlackPawn, WhiteKnight, BlackKnight, WhiteBishop, BlackBishop,
   WhiteRook, BlackRook, WhiteQueen, BlackQueen, WhiteKing, BlackKing]

end Piece

/-- Modelled from the spec (§3): the two colors; the `Color` type lives in the
`common` module which is absent from `src/`. -/
inductive Color where
  | White | Black
deriving DecidableEq, Repr

namespace Color

/-- Rust `Color as usize`: `White = 0`, `Black = 1` (the `all` array of
`Board` is indexed by it). -/
def index : Color → Fin 2
  | White => 0
  | Black => 1

/-- Modelled from the spec (§4.3): `opposite_color` is an O(1) derivation. -/
def opposite : Color → Color
  | White => Black
  | Black => White

end Color

/-- Modelled from the spec (§4.3): "color(piece) returns white/black in O(1)
via ordinal parity" (even = white); `Piece::get_color` is absent from `src/`. -/
def Piece.get_color (p : Piece) : Color :=
  if p.index.val % 2 = 0 then Color.White else Color.Black

/-- Modelled from the spec (§3 and §4.5): the `Move` value
`{from, to, promotion, piece, is_capture}`; `src/moves.rs` is absent.  Field
names follow the accessors used by `board.rs` (`get_from`, `get_to`,
`get_promotion`, `get_piece`, `is_capture`). -/
structure Move where
  get_from : Square
  get_to : Square
  get_promotion : Option Piece
  get_piece : Piece
  is_capture : Bool
deriving DecidableEq, Repr

namespace Move

/-- Modelled from the spec (§4.5): the general constructor. -/
def new (f t : Square) (promotion : Option Piece) (p : Piece) (cap : Bool) : Move :=
  ⟨f, t, promotion, p, cap⟩

/-- Modelled from the spec (§4.5): `quiet(from, to, piece)` sets
`is_capture = false`, `promotion = none`. -/
def quiet (f t : Square) (p : Piece) : Move := ⟨f, t, none, p, false⟩

/-- Modelled from the spec (§4.5): `capture(from, to, piece)` sets
`is_capture = true`, `promotion = none`. -/
def capture (f t : Square) (p : Piece) : Move := ⟨f, t, none, p, true⟩

end Move

/-! ### Per-piece raw target sets (the `movements` collaborator)

The attack/target computation lives in a module absent from `src/`; the
definitions below are modelled from the spec's per-piece rule table (§4.4)
and the boundary property (§8: no wraparound across board edges). -/

/-- Rank/file coordinates lie on the 8x8 grid. -/
def onGrid (r f : Int) : Bool := 0 ≤ r && r < 8 && 0 ≤ f && f < 8

/-- Singleton bit for the square at rank `r`, file `f` (rank-major index). -/
def sqBit (r f : Int) : BitBoard := 1 <<< (r * 8 + f).toNat

/-- Modelled from the spec (§4.4): union of the fixed one-step offsets from a
source square, with edge/file-wrap exclusion. -/
def offsetBits (sqi : Nat) (offs : List (Int × Int)) : BitBoard :=
  let r : Int := (sqi / 8 : Nat)
  let f : Int := (sqi % 8 : Nat)
  offs.foldl
    (fun acc d =>
      if onGrid (r + d.1) (f + d.2) then acc ||| sqBit (r + d.1) (f + d.2) else acc)
    0

/-- Modelled from the spec (§4.4): the 8 compass directions of the king. -/
def kingOffsets : List (Int × Int) :=
  [(-1, -1), (-1, 0), (-1, 1), (0, -1), (0, 1), (1, -1), (1, 0), (1, 1)]

/-- Modelled from the spec (§4.4): the 8 L-shaped knight offsets. -/
def knightOffsets : List (Int × Int) :=
  [(-2, -1), (-2, 1), (-1, -2), (-1, 2), (1, -2), (1, 2), (2, -1), (2, 1)]

/-- Modelled from the spec (§4.4): king targets from a singleton source set,
masked by the mover's own occupancy ("masks out own-occupied squares"). -/
def BitBoard.get_king_moves (from_bb own : BitBoard) : BitBoard :=
  offsetBits (BitBoard.get_index from_bb) kingOffsets &&& (MASK64 ^^^ own)

/-- Modelled from the spec (§4.4): knight targets, masked by own occupancy. -/
def BitBoard.get_knight_moves (from_bb own : BitBoard) : BitBoard :=
  offsetBits (BitBoard.get_index from_bb) knightOffsets &&& (MASK64 ^^^ own)

/-- Modelled from the spec (§4.4, pawn row): white single push onto an empty
square, double push from the home rank when both squares are empty, diagonal
captures only onto opponent squares, never wrapping across the a/h files. -/
def BitBoard.get_white_pawn_moves (from_bb occupied opposite : BitBoard) : BitBoard :=
  let sqi := BitBoard.get_index from_bb
  let r := sqi / 8
  let f := sqi % 8
  let single := if r < 7 && !occupied.testBit (sqi + 8) then 1 <<< (sqi + 8) else 0
  let double :=
    if r == 1 && !occupied.testBit (sqi + 8) && !occupied.testBit (sqi + 16) then
      1 <<< (sqi + 16)
    else 0
  let capWest := if r < 7 && 0 < f && opposite.testBit (sqi + 7) then 1 <<< (sqi + 7) else 0
  let capEast := if r < 7 && f < 7 && opposite.testBit (sqi + 9) then 1 <<< (sqi + 9) else 0
  single ||| double ||| capWest ||| capEast

/-- Modelled from the spec (§4.4, pawn row, color-mirrored): black pawn moves. -/
def BitBoard.get_black_pawn_moves (from_bb occupied opposite : BitBoard) : BitBoard :=
  let sqi := BitBoard.get_index from_bb
  let r := sqi / 8
  let f := sqi % 8
  let single := if 0 < r && !occupied.testBit (sqi - 8) then 1 <<< (sqi - 8) else 0
  let double :=
    if r == 6 && !occupied.testBit (sqi - 8) && !occupied.testBit (sqi - 16) then
      1 <<< (sqi - 16)
    else 0
  let capWest := if 0 < r && 0 < f && opposite.testBit (sqi - 9) then 1 <<< (sqi - 9) else 0
  let capEast := if 0 < r && f < 7 && opposite.testBit (sqi - 7) then 1 <<< (sqi - 7) else 0
  single ||| double ||| capWest ||| capEast

/-- Modelled from the spec (§4.4, sliding row): walk one ray from `(r, f)` in
direction `d`, collecting squares until and including the first occupied one;
`fuel` bounds the walk at the board diameter. -/
def rayBits (occupied : BitBoard) (d : Int × Int) : Nat → Int → Int → BitBoard
  | 0, _, _ => 0
  | fuel + 1, r, f =>
    let r' := r + d.1
    let f' := f + d.2
    if onGrid r' f' then
      let idx := (r' * 8 + f').toNat
      if occupied.testBit idx then 1 <<< idx
      else (1 <<< idx) ||| rayBits occupied d fuel r' f'
    else 0

/-- Modelled from the spec (§4.4, sliding row): union of the ray casts of the
given directions from a source square. -/
def slideBits (occupied : BitBoard) (sqi : Nat) (dirs : List (Int × Int)) : BitBoard :=
  dirs.foldl
    (fun acc d => acc ||| rayBits occupied d 7 ((sqi / 8 : Nat) : Int) ((sqi % 8 : Nat) : Int))
    0

/-- Modelled from the spec (§4.4): the bishop's diagonal directions. -/
def bishopDirs : List (Int × Int) := [(-1, -1), (-1, 1), (1, -1), (1, 1)]

/-- Modelled from the spec (§4.4): the rook's orthogonal directions. -/
def rookDirs : List (Int × Int) := [(-1, 0), (1, 0), (0, -1), (0, 1)]

/-- Modelled from the spec (§4.4): bishop ray targets, own-masked afterwards. -/
def BitBoard.get_bishop_moves (from_bb occupied own : BitBoard) : BitBoard :=
  slideBits occupied (BitBoard.get_index from_bb) bishopDirs &&& (MASK64 ^^^ own)

/-- Modelled from the spec (§4.4): rook ray targets, own-masked afterwards. -/
def BitBoard.get_rook_moves (from_bb occupied own : BitBoard) : BitBoard :=
  slideBits occupied (BitBoard.get_index from_bb) rookDirs &&& (MASK64 ^^^ own)

/-- Modelled from the spec (§4.4): queen = diagonal and orthogonal rays,
own-masked afterwards. -/
def BitBoard.get_queen_moves (from_bb occupied own : BitBoard) : BitBoard :=
  slideBits occupied (BitBoard.get_index from_bb) (bishopDirs ++ rookDirs) &&& (MASK64 ^^^ own)

/-! ### The `fen` collaborator

`src/fen.rs` is absent; modelled from the spec (§6): the decoder yields a
64-entry sequence of optional piece identities in rank-8-to-rank-1,
file-a-to-file-h order plus side-to-move, castling, en-passant and clock
fields; the encoder is the inverse direction, producing canonical text. -/

/-- Structural split of a character list on a separator character (the
model's stand-in for Rust's `str::split`). -/
def splitOnChar (sep : Char) : List Char → List (List Char)
  | [] => [[]]
  | c :: cs =>
    match splitOnChar sep cs with
    | [] => if c = sep then [[], []] else [[c]]
    | cur :: rest => if c = sep then [] :: cur :: rest else (c :: cur) :: rest

/-- Structural decimal-digit parser (the model's stand-in for Rust's
`str::parse::<usize>`). -/
def digitsToNat (cs : List Char) : Option Nat :=
  if cs = [] then none
  else
    cs.foldl
      (fun acc c =>
        match acc with
        | none => none
        | some n => if '0' ≤ c ∧ c ≤ '9' then some (n * 10 + (c.toNat - 48)) else none)
      (some 0)

/-- Structural separator-join (the model's stand-in for joining rank strings
with `/`). -/
def joinSep (sep : String) : List String → String
  | [] => ""
  | [x] => x
  | x :: y :: rest => x ++ sep ++ joinSep sep (y :: rest)

namespace fen

/-- Modelled from the spec (§6): expand one rank of the placement field
(digits are runs of empty squares, letters are piece codes). -/
def expandRank (cs : List Char) : Option (List (Option Piece)) :=
  cs.foldl
    (fun acc c =>
      match acc with
      | none => none
      | some l =>
        if '1' ≤ c ∧ c ≤ '8' then some (l ++ List.replicate (c.toNat - 48) none)
        else
          match Piece.try_from c with
          | some p => some (l ++ [some p])
          | none => none)
    (some [])

/-- Modelled from the spec (§6): parse the piece-placement field into the
64-entry scan-order sequence (rank 8 to rank 1, file a to file h);
malformed text yields `none`. -/
def parsePlacement (cs : List Char) : Option (List (Option Piece)) :=
  let ranks := splitOnChar '/' cs
  if ranks.length = 8 then
    (ranks.mapM fun r =>
      (expandRank r).bind fun l => if l.length = 8 then some l else none).map
      List.flatten
  else none

/-- Modelled from the spec (§6): the side-to-move field. -/
def parseSide (cs : List Char) : Option Color :=
  if cs = ['w'] then some Color.White
  else if cs = ['b'] then some Color.Black
  else none

/-- Modelled from the spec (§6): the castling-rights field. -/
def parseCastling (cs : List Char) : Option (List Piece) :=
  if cs = ['-'] then some [] else cs.mapM Piece.try_from

/-- Modelled from the spec (§6): the en-passant-target field. -/
def parseEp (cs : List Char) : Option (Option Square) :=
  if cs = ['-'] then some none else (Square.try_from (String.mk cs)).map some

/-- Modelled from the spec (§6): `fen::parse` splits the position text into
its six fields and returns the 64-entry sequence plus the metadata; the
Rust panic on malformed input is modelled as `none`. -/
def parse (s : String) :
    Option (List (Option Piece) × Color × List Piece × Option Square × Nat × Nat) :=
  match splitOnChar ' ' s.toList with
  | [pl, sd, ca, ep, hm, fm] =>
    (parsePlacement pl).bind fun placement =>
    (parseSide sd).bind fun side =>
    (parseCastling ca).bind fun castling =>
    (parseEp ep).bind fun enPassant =>
    (digitsToNat hm).bind fun half =>
    (digitsToNat fm).map fun full =>
    (placement, side, castling, enPassant, half, full)
  | _ => none

/-- Modelled from the spec (§6): encode one rank, coalescing empty squares
into digit runs. -/
def rankString (entries : List (Option Piece)) : String :=
  let step := fun (acc : String × Nat) (e : Option Piece) =>
    match e with
    | none => (acc.1, acc.2 + 1)
    | some p =>
      (acc.1 ++ (if acc.2 = 0 then "" else toString acc.2) ++ String.mk [Piece.to_char p], 0)
  let r := entries.foldl step ("", 0)
  r.1 ++ (if r.2 = 0 then "" else toString r.2)

/-- Modelled from the spec (§6): `fen::create`, the inverse direction —
accepts the 64-entry sequence plus metadata and returns canonical text. -/
def create (placement : List (Option Piece)) (side : Color) (castling : List Piece)
    (enPassant : Option Square) (half full : Nat) : String :=
  joinSep "/" ((chunks8 placement).map rankString) ++ " " ++
    (match side with | Color.White => "w" | Color.Black => "b") ++ " " ++
    (if castling.isEmpty then "-" else String.mk (castling.map Piece.to_char)) ++ " " ++
    (match enPassant with | none => "-" | some sq => Square.text sq) ++ " " ++
    toString half ++ " " ++ toString full

end fen

/-! ### Board state (`src/board.rs`) -/

/-! Modelled from the spec (§4.2 `initial_position()`: "standard starting
layout, one bit-set per piece identity"); the `constants` module is absent
from `src/`. -/
namespace constants

def WHITE_PAWNS : BitBoard := 0xFF00

def BLACK_PAWNS : BitBoard := 0x00FF000000000000

def WHITE_KNIGHTS : BitBoard := 0x42

def BLACK_KNIGHTS : BitBoard := 0x4200000000000000

def WHITE_BISHOPS : BitBoard := 0x24

def BLACK_BISHOPS : BitBoard := 0x2400000000000000

def WHITE_ROOKS : BitBoard := 0x81

def BLACK_ROOKS : BitBoard := 0x8100000000000000

def WHITE_QUEENS : BitBoard := 0x08

def BLACK_QUEENS : BitBoard := 0x0800000000000000

def WHITE_KING : BitBoard := 0x10

def BLACK_KING : BitBoard := 0x1000000000000000

end constants

/-- The `Board` aggregate (`src/board.rs` lines 13-27): 12 per-piece bit-sets
(even indexes white), 2 per-color aggregates, 1 occupancy set.  The
side-to-move / en-passant / castling fields are commented out in the source
and therefore absent here too. -/
structure Board where
  pieces : Fin 12 → BitBoard
  all : Fin 2 → BitBoard
  occupied : BitBoard

instance : DecidableEq Board := fun a b =>
  decidable_of_iff (a.pieces = b.pieces ∧ a.all = b.all ∧ a.occupied = b.occupied)
    (by cases a; cases b; simp [Board.mk.injEq])

/-- `get_all_bitboards` (`src/board.rs` lines 29-37): fold the 12 piece
bit-sets into the 2 per-color aggregates via `acc[i % 2] |= bb`. -/
def get_all_bitboards (pieces : Fin 12 → BitBoard) : Fin 2 → BitBoard :=
  (List.finRange 12).foldl
    (fun acc i =>
      Function.update acc ⟨i.val % 2, Nat.mod_lt _ (by omega)⟩
        (acc ⟨i.val % 2, Nat.mod_lt _ (by omega)⟩ ||| pieces i))
    (fun _ => BitBoard.EMPTY)

/-- `get_occupied_bitboard` (`src/board.rs` lines 39-41): `all[0] | all[1]`. -/
def get_occupied_bitboard (all : Fin 2 → BitBoard) : BitBoard := all 0 ||| all 1

namespace Board

/-- `Board::empty` (`src/board.rs` lines 47-53). -/
def empty : Board :=
  { pieces := fun _ => BitBoard.EMPTY, all := fun _ => BitBoard.EMPTY,
    occupied := BitBoard.EMPTY }

/-- `Board::initial_board` (`src/board.rs` lines 56-80): the twelve constant
bit-sets in piece order, aggregates and occupancy recomputed from them. -/
def initial_board : Board :=
  let pieces : Fin 12 → BitBoard := fun i =>
    [constants.WHITE_PAWNS, constants.BLACK_PAWNS,
     constants.WHITE_KNIGHTS, constants.BLACK_KNIGHTS,
     constants.WHITE_BISHOPS, constants.BLACK_BISHOPS,
     constants.WHITE_ROOKS, constants.BLACK_ROOKS,
     constants.WHITE_QUEENS, constants.BLACK_QUEENS,
     constants.WHITE_KING, constants.BLACK_KING].get (i.cast (by simp))
  { pieces := pieces, all := get_all_bitboards pieces,
    occupied := get_occupied_bitboard (get_all_bitboards pieces) }

/-- `Board::from_fen` (`src/board.rs` lines 103-137): parse the position
text, then for each of the 12 piece identities map the 64-entry placement
sequence to a 0/1 list and pack it into a bit-set (the packing mirrors
`From<&str> for BitBoard`); aggregates and occupancy recomputed from
scratch.  The metadata fields are accepted and dropped. -/
def from_fen (s : String) : Option Board :=
  (fen.parse s).map fun data =>
    let placement := data.1
    let pieces : Fin 12 → BitBoard := fun i =>
      packBits (placement.map fun c =>
        if c = some (Piece.of_index i) then (1 : Nat) else 0)
    { pieces := pieces, all := get_all_bitboards pieces,
      occupied := get_occupied_bitboard (get_all_bitboards pieces) }

/-- The first-match occupant scan of `Board::as_fen` (`src/board.rs` lines
146-151): test the 12 bit-sets in piece order and stop at the first match. -/
def occupant (b : Board) (index : Nat) : Option Piece :=
  ((List.finRange 12).find? fun i => (b.pieces i).is_set index).map Piece.of_index

/-- `Board::as_fen` (`src/board.rs` lines 139-170): collect the 64 occupants
in rank-8-to-rank-1, file-a-to-file-h order and hand them to `fen::create`
with the hard-coded metadata (white to move, full castling, no en-passant,
clocks 0 and 1). -/
def as_fen (b : Board) : String :=
  let placement :=
    ((List.range 8).reverse).flatMap fun rank =>
      (List.range 8).map fun file => occupant b (rank * 8 + file)
  fen.create placement Color.White
    [Piece.WhiteKing, Piece.WhiteQueen, Piece.BlackKing, Piece.BlackQueen] none 0 1

/-- The capture scan of `Board::update_by_move` (`src/board.rs` lines
187-199): iterate over **all twelve** piece bit-sets in index order (the
source comment says "Loop over bitboards opposite color", but the loop is
`for bb in &mut self.pieces`), XOR the destination bit out of the first one
intersecting it and out of the opposite aggregate, then stop. -/
def captureScan (pieces : Fin 12 → BitBoard) (all : Fin 2 → BitBoard) (color : Color)
    (to_bb : BitBoard) : (Fin 12 → BitBoard) × (Fin 2 → BitBoard) :=
  match (List.finRange 12).find? (fun i => pieces i &&& to_bb != 0) with
  | some i =>
    (Function.update pieces i (pieces i ^^^ to_bb),
     Function.update all color.opposite.index (all color.opposite.index ^^^ to_bb))
  | none => (pieces, all)

/-- `Board::update_by_move` (`src/board.rs` lines 174-202): the
`unimplemented!` promotion path is modelled as `none`; otherwise XOR the
from/to delta into the moving piece's bit-set and the mover's aggregate, run
the capture scan when the move is flagged as a capture, and XOR the delta
into occupancy. -/
def update_by_move (b : Board) (mv : Move) : Option Board :=
  match mv.get_promotion with
  | some _ => none
  | none =>
    let color := mv.get_piece.get_color
    let from_bb := BitBoard.from_square mv.get_from
    let to_bb := BitBoard.from_square mv.get_to
    let from_to_bb := from_bb ^^^ to_bb
    let pieces1 :=
      Function.update b.pieces mv.get_piece.index
        (b.pieces mv.get_piece.index ^^^ from_to_bb)
    let all1 :=
      Function.update b.all color.index (b.all color.index ^^^ from_to_bb)
    let scanned :=
      if mv.is_capture then captureScan pieces1 all1 color to_bb else (pieces1, all1)
    some { pieces := scanned.1, all := scanned.2, occupied := b.occupied ^^^ from_to_bb }

/-- Modelled from the spec (§4.2/§9): side-to-move is decoded but "not yet
threaded into Board's behavior", and current behavior "conflate[s] 'side to
move' with 'white'"; the `Board` struct stores no side field, so
`get_side_to_move` yields white. -/
def get_side_to_move (_ : Board) : Color := Color.White

/-- Modelled from the spec (§4.3): the opposite of the side to move. -/
def opposite_side (b : Board) : Color := (b.get_side_to_move).opposite

end Board

/-! ### Move generation (`src/board/move_gen.rs`) -/

/-- Modelled from the spec: the `u8 -> Square` conversion used by
`from_bb.get_index().into()`; indices are reduced mod 64 to stay on the
enumeration (the generator only ever passes indices below 64). -/
def Square.of_index (n : Nat) : Square := ⟨n % 64, Nat.mod_lt _ (by omega)⟩

/-- The per-piece dispatch of `generate_moves_for`
(`src/board/move_gen.rs` lines 26-40). -/
def pieceTargets (piece : Piece) (from_bb occupied own_bb opposite_bb : BitBoard) :
    BitBoard :=
  match piece with
  | Piece.WhiteKing | Piece.BlackKing => from_bb.get_king_moves own_bb
  | Piece.WhiteKnight | Piece.BlackKnight => from_bb.get_knight_moves own_bb
  | Piece.WhitePawn => from_bb.get_white_pawn_moves occupied opposite_bb
  | Piece.BlackPawn => from_bb.get_black_pawn_moves occupied opposite_bb
  | Piece.WhiteBishop | Piece.BlackBishop => from_bb.get_bishop_moves occupied own_bb
  | Piece.WhiteRook | Piece.BlackRook => from_bb.get_rook_moves occupied own_bb
  | Piece.WhiteQueen | Piece.BlackQueen => from_bb.get_queen_moves occupied own_bb

/-- The inner `while !moves_bb.is_zero()` loop of `generate_moves_for`
(`src/board/move_gen.rs` lines 43-52): pop the lowest set bit as the
destination, flag capture when it intersects the opponent aggregate, emit a
`Move`. -/
def genMoveListF (from_square : Square) (piece : Piece) (opposite_bb : BitBoard) :
    Nat → BitBoard → List Move
  | 0, _ => []
  | fuel + 1, moves_bb =>
    if moves_bb = 0 then []
    else
      let to_bb := moves_bb.get_ls1b
      let to_square := Square.of_index to_bb.get_index
      Move.new from_square to_square none piece (opposite_bb.contains to_bb) ::
        genMoveListF from_square piece opposite_bb fuel moves_bb.reset_ls1b

/-- Entry point of the inner loop; `fuel := moves_bb` suffices because
clearing the lowest set bit strictly decreases the value. -/
def genMoveList (from_square : Square) (piece : Piece) (opposite_bb : BitBoard)
    (moves_bb : BitBoard) : List Move :=
  genMoveListF from_square piece opposite_bb moves_bb moves_bb

/-- The outer `while !pieces_bb.is_zero()` loop of `generate_moves_for`
(`src/board/move_gen.rs` lines 23-55): pop the lowest set bit as the source
square, compute the raw target set for the piece, enumerate destinations. -/
def movesFromSquaresF (piece : Piece) (occupied own_bb opposite_bb : BitBoard) :
    Nat → BitBoard → List Move
  | 0, _ => []
  | fuel + 1, pieces_bb =>
    if pieces_bb = 0 then []
    else
      let from_bb := pieces_bb.get_ls1b
      let from_square := Square.of_index from_bb.get_index
      let moves_bb := pieceTargets piece from_bb occupied own_bb opposite_bb
      genMoveList from_square piece opposite_bb moves_bb ++
        movesFromSquaresF piece occupied own_bb opposite_bb fuel pieces_bb.reset_ls1b

/-- Entry point of the outer loop; `fuel := pieces_bb` suffices because
clearing the lowest set bit strictly decreases the value. -/
def movesFromSquares (piece : Piece) (occupied own_bb opposite_bb : BitBoard)
    (pieces_bb : BitBoard) : List Move :=
  movesFromSquaresF piece occupied own_bb opposite_bb pieces_bb pieces_bb

/-- The body of the `for &moving_pieces in pieces.iter().filter(...)` loop of
`generate_moves_for` (`src/board/move_gen.rs` lines 15-55), for one piece
identity. -/
def Board.movesForPiece (b : Board) (p : Piece) : List Move :=
  movesFromSquares p b.occupied (b.all b.get_side_to_move.index)
    (b.all b.opposite_side.index) (b.pieces p.index)

/-- `Board::generate_moves_for` (`src/board/move_gen.rs` lines 10-58): iterate
the requested identities **in the caller's order**, keeping those whose color
is the side to move, and concatenate each identity's moves. -/
def Board.generate_moves_for (b : Board) (ps : List Piece) : List Move :=
  (ps.filter fun p => b.get_side_to_move == p.get_color).flatMap fun p =>
    b.movesForPiece p

/-- `Board::generate_moves` (`src/board/move_gen.rs` lines 60-62): the same
call with all 12 identities.  (An older inline version in `src/board.rs`
lines 205-228 generated king moves only; the `move_gen.rs` definition is the
one the spec describes.) -/
def Board.generate_moves (b : Board) : List Move :=
  b.generate_moves_for Piece.ALL_PIECES

/-! ### Derived notions used by the testable properties -/

/-- Union of all 12 piece bit-sets of a board. -/
def piecesUnion (b : Board) : BitBoard :=
  (List.finRange 12).foldl (fun a i => a ||| b.pieces i) 0

/-- Union of the 6 piece bit-sets of one color (even ordinals are white). -/
def colorUnion (b : Board) (c : Color) : BitBoard :=
  (List.finRange 12).foldl
    (fun a i => if i.val % 2 = c.index.val then a ||| b.pieces i else a) 0

/-- The three board invariants of the spec (§3): occupancy is the union of
the two color aggregates and of all 12 piece sets, each aggregate is the
union of its color's piece sets, and the 12 piece sets are pairwise
disjoint. -/
def Board.invariants (b : Board) : Prop :=
  b.occupied = b.all 0 ||| b.all 1 ∧
  b.occupied = piecesUnion b ∧
  b.all 0 = colorUnion b Color.White ∧
  b.all 1 = colorUnion b Color.Black ∧
  ∀ i j : Fin 12, i ≠ j → b.pieces i &&& b.pieces j = 0

instance (b : Board) : Decidable b.invariants := by
  unfold Board.invariants; infer_instance

/-- Every move of the list is produced by the generator on the board it is
applied to, moving along the chain of `update_by_move` results. -/
def movesAllGenerated : Board → List Move → Bool
  | _, [] => true
  | b, m :: ms =>
    (b.generate_moves).contains m &&
      match b.update_by_move m with
      | some b2 => movesAllGenerated b2 ms
      | none => false

/-- Source-then-destination ordering of two moves: strictly ascending source
square index, destinations strictly ascending within one source square. -/
def moveLt (m1 m2 : Move) : Prop :=
  m1.get_from.val < m2.get_from.val ∨
    (m1.get_from = m2.get_from ∧ m1.get_to.val < m2.get_to.val)

instance : DecidableRel moveLt := fun m1 m2 => by unfold moveLt; infer_instance

/-- The ordering asserted by the spec sentence under test for C5: ascending
piece-identity ordinal, then ascending source square, then ascending
destination square. -/
def claimOrder (m1 m2 : Move) : Prop :=
  m1.get_piece.index.val < m2.get_piece.index.val ∨
    (m1.get_piece.index = m2.get_piece.index ∧ moveLt m1 m2)

instance : DecidableRel claimOrder := fun m1 m2 => by unfold claimOrder; infer_instance

/-- The position `8/8/8/8/8/1p6/P7/8 w - - 0 1`: a white pawn on a2 and a
black pawn on b3, so the white pawn has the diagonal capture a2xb3. -/
def bugBoard0 : Board :=
  (Board.from_fen "8/8/8/8/8/1p6/P7/8 w - - 0 1").getD Board.empty

/-- The generated capture a2xb3 by the white pawn. -/
def bugMove : Move := Move.capture 8 17 Piece.WhitePawn

/-- The board after applying `bugMove` to `bugBoard0`. -/
def bugBoard1 : Board := (bugBoard0.update_by_move bugMove).getD Board.empty

/-- From the initial position: e2-e4, e4-e5, e5-e6, then the pawn capture
e6xd7 — all produced by the generator at their respective steps. -/
def c3Moves : List Move :=
  [Move.quiet 12 28 Piece.WhitePawn, Move.quiet 28 36 Piece.WhitePawn,
   Move.quiet 36 44 Piece.WhitePawn, Move.capture 44 51 Piece.WhitePawn]

/-- The board reached from the initial position through `c3Moves`. -/
def c3Board : Board :=
  (c3Moves.foldlM Board.update_by_move Board.initial_board).getD Board.empty

/-- The decoded position `2k5/8/8/8/8/8/2Pp4/2K5 w - - 0 1` of the king
scenario. -/
def c6Board : Board :=
  (Board.from_fen "2k5/8/8/8/8/8/2Pp4/2K5 w - - 0 1").getD Board.empty

namespace BitBoard

lemma ctzF_zero (fuel : Nat) : ctzF fuel 0 = 0 := by
  cases fuel <;> simp [ctzF]

lemma ctzF_congr (f1 : Nat) : ∀ f2 n, n ≤ f1 → n ≤ f2 → ctzF f1 n = ctzF f2 n := by
  induction f1 with
  | zero =>
    intro f2 n h1 _
    have : n = 0 := by omega
    subst this
    rw [ctzF_zero, ctzF_zero]
  | succ f ih =>
    intro f2 n h1 h2
    by_cases hn : n = 0
    · subst hn; rw [ctzF_zero, ctzF_zero]
    · obtain ⟨g, rfl⟩ : ∃ g, f2 = g + 1 := ⟨f2 - 1, by omega⟩
      by_cases hodd : n % 2 = 1
      · simp [ctzF, hn, hodd]
      · have hlt : n / 2 < n := Nat.div_lt_self (by omega) (by omega)
        simp only [ctzF, if_neg hn, if_neg hodd]
        rw [ih g (n / 2) (by omega) (by omega)]

lemma ctz_of_odd (n : Nat) (h : n % 2 = 1) : ctz n = 0 := by
  obtain ⟨m, rfl⟩ : ∃ m, n = m + 1 := ⟨n - 1, by omega⟩
  simp [ctz, ctzF, h]

lemma ctz_of_even (n : Nat) (hn : n ≠ 0) (h : n % 2 = 0) : ctz n = ctz (n / 2) + 1 := by
  obtain ⟨m, rfl⟩ : ∃ m, n = m + 1 := ⟨n - 1, by omega⟩
  have hodd : ¬ (m + 1) % 2 = 1 := by omega
  show ctzF (m + 1) (m + 1) = ctzF ((m + 1) / 2) ((m + 1) / 2) + 1
  simp only [ctzF, if_neg (by omega : ¬ (m + 1) = 0), if_neg hodd]
  have hlt : (m + 1) / 2 < m + 1 := Nat.div_lt_self (by omega) (by omega)
  rw [ctzF_congr m ((m + 1) / 2) ((m + 1) / 2) (by omega) le_rfl]

lemma ctz_spec (n : Nat) :
    n ≠ 0 → n.testBit (ctz n) = true ∧ ∀ j < ctz n, n.testBit j = false := by
  induction n using Nat.strong_induction_on with
  | _ n ih =>
    intro hn
    by_cases hodd : n % 2 = 1
    · rw [ctz_of_odd n hodd]
      refine ⟨by simp [Nat.testBit_zero, hodd], fun j hj => by omega⟩
    · have heven : n % 2 = 0 := by omega
      rw [ctz_of_even n hn heven]
      have hhalf : n / 2 ≠ 0 := by omega
      have hlt : n / 2 < n := Nat.div_lt_self (by omega) (by omega)
      obtain ⟨h1, h2⟩ := ih (n / 2) hlt hhalf
      refine ⟨by rw [Nat.testBit_succ]; exact h1, fun j hj => ?_⟩
      cases j with
      | zero => simp [Nat.testBit_zero, heven]
      | succ i => rw [Nat.testBit_succ]; exact h2 i (by omega)

lemma pred_testBit (n : Nat) :
    n ≠ 0 → ∀ j, (n - 1).testBit j =
      (if j < ctz n then true else if j = ctz n then false else n.testBit j) := by
  induction n using Nat.strong_induction_on with
  | _ n ih =>
    intro hn j
    by_cases hodd : n % 2 = 1
    · rw [ctz_of_odd n hodd]
      cases j with
      | zero => simp [Nat.testBit_zero]; omega
      | succ i =>
        have hd : (n - 1) / 2 = n / 2 := by omega
        rw [Nat.testBit_succ, hd]
        simp only [Nat.not_lt_zero, if_neg (by omega : ¬ (i + 1) < 0),
          if_neg (by omega : ¬ (i + 1) = 0), Nat.testBit_succ]
        simp
    · have heven : n % 2 = 0 := by omega
      rw [ctz_of_even n hn heven]
      cases j with
      | zero =>
        have : (n - 1) % 2 = 1 := by omega
        simp [Nat.testBit_zero, this]
      | succ i =>
        have hhalf : n / 2 ≠ 0 := by omega
        have hlt : n / 2 < n := Nat.div_lt_self (by omega) (by omega)
        have hd : (n - 1) / 2 = n / 2 - 1 := by omega
        rw [Nat.testBit_succ, hd, ih (n / 2) hlt hhalf i]
        have hsucc : n.testBit (i + 1) = (n / 2).testBit i := Nat.testBit_succ n i
        split_ifs <;> (try rfl) <;> (try omega) <;> simp [hsucc]

lemma reset_testBit (n : Nat) (hn : n ≠ 0) (j : Nat) :
    (reset_ls1b n).testBit j = if j = ctz n then false else n.testBit j := by
  unfold reset_ls1b
  rw [Nat.testBit_and, pred_testBit n hn j]
  rcases lt_trichotomy j (ctz n) with h | h | h
  · rw [if_pos h, if_neg (by omega), (ctz_spec n hn).2 j h]
    simp
  · subst h
    simp
  · rw [if_neg (by omega), if_neg (by omega), Bool.and_self]

lemma reset_le (n : Nat) : reset_ls1b n ≤ n := Nat.and_le_left

lemma reset_lt (n : Nat) (hn : n ≠ 0) : reset_ls1b n < n :=
  Nat.lt_of_le_of_lt Nat.and_le_right (Nat.sub_lt (Nat.pos_of_ne_zero hn) Nat.one_pos)

lemma testBit_true_lt (n j : Nat) (h : n.testBit j = true) (hb : n < 2 ^ 64) : j < 64 := by
  by_contra h64
  have : n < 2 ^ j := lt_of_lt_of_le hb (Nat.pow_le_pow_right (by omega) (by omega))
  rw [Nat.testBit_lt_two_pow this] at h
  exact Bool.false_ne_true h

lemma ctz_lt_64 (n : Nat) (hn : n ≠ 0) (hb : n < 2 ^ 64) : ctz n < 64 :=
  testBit_true_lt n _ (ctz_spec n hn).1 hb

lemma ctz_two_pow (k : Nat) : ctz (2 ^ k) = k := by
  induction k with
  | zero => exact ctz_of_odd 1 (by norm_num)
  | succ i ih =>
    have h2 : 2 ^ (i + 1) = 2 ^ i * 2 := by ring
    have heven : 2 ^ (i + 1) % 2 = 0 := by omega
    have hne : 2 ^ (i + 1) ≠ 0 := by positivity
    rw [ctz_of_even _ hne heven]
    have : 2 ^ (i + 1) / 2 = 2 ^ i := by omega
    rw [this, ih]

lemma get_ls1b_eq (n : Nat) (hn : n ≠ 0) : get_ls1b n = 2 ^ ctz n := by
  unfold get_ls1b
  rw [if_neg hn, Nat.shiftLeft_eq, one_mul]

lemma get_index_get_ls1b (n : Nat) (hn : n ≠ 0) : (get_ls1b n).get_index = ctz n := by
  rw [get_ls1b_eq n hn]
  exact ctz_two_pow (ctz n)

lemma reset_testBit_gt (n : Nat) (hn : n ≠ 0) (j : Nat)
    (h : (reset_ls1b n).testBit j = true) : ctz n < j := by
  rw [reset_testBit n hn j] at h
  rcases lt_trichotomy j (ctz n) with hlt | heq | hgt
  · rw [if_neg (by omega), (ctz_spec n hn).2 j hlt] at h
    exact absurd h (by simp)
  · rw [if_pos heq] at h
    exact absurd h (by simp)
  · exact hgt

end BitBoard

/-! ### Bounds: every target set the generator computes fits in 64 bits -/

lemma shift_one_lt (k : Nat) (h : k < 64) : (1 : Nat) <<< k < 2 ^ 64 := by
  rw [Nat.shiftLeft_eq, one_mul]
  exact Nat.pow_lt_pow_right (by omega) h

lemma sqBit_lt (r f : Int) (h : onGrid r f = true) : sqBit r f < 2 ^ 64 := by
  simp only [onGrid, Bool.and_eq_true, decide_eq_true_eq] at h
  exact shift_one_lt _ (by omega)

lemma foldl_or_lt {α : Type} (l : List α) (step : Nat → α → Nat)
    (hstep : ∀ acc d, acc < 2 ^ 64 → step acc d < 2 ^ 64) :
    ∀ acc, acc < 2 ^ 64 → l.foldl step acc < 2 ^ 64 := by
  induction l with
  | nil => intro acc h; simpa using h
  | cons x xs ih => intro acc h; exact ih _ (hstep acc x h)

lemma offsetBits_lt (sqi : Nat) (offs : List (Int × Int)) :
    offsetBits sqi offs < 2 ^ 64 := by
  unfold offsetBits
  apply foldl_or_lt _ _ _ 0 (by positivity)
  intro acc d hacc
  dsimp only
  split
  · exact Nat.or_lt_two_pow hacc (sqBit_lt _ _ (by assumption))
  · exact hacc

lemma rayBits_lt (occ : BitBoard) (d : Int × Int) :
    ∀ fuel r f, rayBits occ d fuel r f < 2 ^ 64 := by
  intro fuel
  induction fuel with
  | zero => intro r f; simp [rayBits]
  | succ n ih =>
    intro r f
    unfold rayBits
    dsimp only
    split
    · next hgrid =>
      simp only [onGrid, Bool.and_eq_true, decide_eq_true_eq] at hgrid
      split
      · exact shift_one_lt _ (by omega)
      · exact Nat.or_lt_two_pow (shift_one_lt _ (by omega)) (ih _ _)
    · positivity

lemma slideBits_lt (occ : BitBoard) (sqi : Nat) (dirs : List (Int × Int)) :
    slideBits occ sqi dirs < 2 ^ 64 := by
  unfold slideBits
  apply foldl_or_lt _ _ _ 0 (by positivity)
  intro acc d hacc
  exact Nat.or_lt_two_pow hacc (rayBits_lt occ d 7 _ _)

lemma ite_shift_lt (c : Bool) (k : Nat) (h : c = true → k < 64) :
    (if c then (1 : Nat) <<< k else 0) < 2 ^ 64 := by
  split
  · exact shift_one_lt _ (h (by assumption))
  · positivity

lemma white_pawn_lt (from_bb occ opp : BitBoard) :
    BitBoard.get_white_pawn_moves from_bb occ opp < 2 ^ 64 := by
  unfold BitBoard.get_white_pawn_moves
  refine Nat.or_lt_two_pow (Nat.or_lt_two_pow (Nat.or_lt_two_pow ?_ ?_) ?_) ?_
  · refine ite_shift_lt _ _ fun hc => ?_
    simp only [Bool.and_eq_true, decide_eq_true_eq] at hc
    omega
  · refine ite_shift_lt _ _ fun hc => ?_
    simp only [Bool.and_eq_true, beq_iff_eq] at hc
    omega
  · refine ite_shift_lt _ _ fun hc => ?_
    simp only [Bool.and_eq_true, decide_eq_true_eq] at hc
    omega
  · refine ite_shift_lt _ _ fun hc => ?_
    simp only [Bool.and_eq_true, decide_eq_true_eq] at hc
    omega

lemma black_pawn_lt (from_bb occ opp : BitBoard)
    (h : BitBoard.get_index from_bb < 64) :
    BitBoard.get_black_pawn_moves from_bb occ opp < 2 ^ 64 := by
  unfold BitBoard.get_black_pawn_moves
  refine Nat.or_lt_two_pow (Nat.or_lt_two_pow (Nat.or_lt_two_pow ?_ ?_) ?_) ?_ <;>
    exact ite_shift_lt _ _ fun _ => by omega

lemma pieceTargets_lt (p : Piece) (from_bb occ own opp : BitBoard)
    (h : BitBoard.get_index from_bb < 64) :
    pieceTargets p from_bb occ own opp < 2 ^ 64 := by
  cases p <;>
    simp only [pieceTargets, BitBoard.get_king_moves, BitBoard.get_knight_moves,
      BitBoard.get_bishop_moves, BitBoard.get_rook_moves, BitBoard.get_queen_moves]
  case WhitePawn => exact white_pawn_lt from_bb occ opp
  case BlackPawn => exact black_pawn_lt from_bb occ opp h
  all_goals
    exact Nat.lt_of_le_of_lt Nat.and_le_left
      (by first
        | exact offsetBits_lt _ _
        | exact slideBits_lt _ _ _)

/-! ### Enumeration order of the generator loops -/

lemma of_index_val (k : Nat) (h : k < 64) : (Square.of_index k).val = k := by
  simp [Square.of_index, Nat.mod_eq_of_lt h]

lemma genMoveListF_facts (fs : Square) (p : Piece) (opp : BitBoard) :
    ∀ fuel mbb, mbb ≤ fuel → mbb < 2 ^ 64 →
      (∀ m ∈ genMoveListF fs p opp fuel mbb,
        m.get_from = fs ∧ m.get_piece = p ∧ mbb.testBit m.get_to.val = true) ∧
      List.Pairwise (fun m1 m2 : Move => m1.get_to.val < m2.get_to.val)
        (genMoveListF fs p opp fuel mbb) := by
  intro fuel
  induction fuel with
  | zero =>
    intro mbb hle _
    have : mbb = 0 := by omega
    subst this
    simp [genMoveListF]
  | succ fuel ih =>
    intro mbb hle hlt
    by_cases h0 : mbb = 0
    · subst h0; simp [genMoveListF]
    · have hctz : BitBoard.ctz mbb < 64 := BitBoard.ctz_lt_64 mbb h0 hlt
      have hval : (Square.of_index (BitBoard.get_ls1b mbb).get_index).val = BitBoard.ctz mbb := by
        rw [BitBoard.get_index_get_ls1b mbb h0, of_index_val _ hctz]
      have hrle : BitBoard.reset_ls1b mbb ≤ fuel :=
        Nat.le_of_lt_succ (Nat.lt_of_lt_of_le (BitBoard.reset_lt mbb h0) hle)
      have hrlt : BitBoard.reset_ls1b mbb < 2 ^ 64 :=
        Nat.lt_of_le_of_lt (BitBoard.reset_le mbb) hlt
      obtain ⟨ihmem, ihpw⟩ := ih (BitBoard.reset_ls1b mbb) hrle hrlt
      simp only [genMoveListF, if_neg h0]
      constructor
      · intro m hm
        rcases List.mem_cons.mp hm with hm | hm
        · subst hm
          refine ⟨rfl, rfl, ?_⟩
          simpa [Move.new, hval] using (BitBoard.ctz_spec mbb h0).1
        · obtain ⟨h1, h2, h3⟩ := ihmem m hm
          refine ⟨h1, h2, ?_⟩
          rw [BitBoard.reset_testBit mbb h0] at h3
          by_cases hc : m.get_to.val = BitBoard.ctz mbb
          · rw [if_pos hc] at h3; exact absurd h3 (by simp)
          · rwa [if_neg hc] at h3
      · rw [List.pairwise_cons]
        refine ⟨fun m hm => ?_, ihpw⟩
        obtain ⟨_, _, h3⟩ := ihmem m hm
        have := BitBoard.reset_testBit_gt mbb h0 m.get_to.val h3
        simpa [Move.new, hval] using this

lemma movesFromSquaresF_facts (p : Piece) (occ own opp : BitBoard) :
    ∀ fuel pbb, pbb ≤ fuel → pbb < 2 ^ 64 →
      (∀ m ∈ movesFromSquaresF p occ own opp fuel pbb,
        m.get_piece = p ∧ pbb.testBit m.get_from.val = true) ∧
      List.Pairwise moveLt (movesFromSquaresF p occ own opp fuel pbb) := by
  intro fuel
  induction fuel with
  | zero =>
    intro pbb hle _
    have : pbb = 0 := by omega
    subst this
    simp [movesFromSquaresF]
  | succ fuel ih =>
    intro pbb hle hlt
    by_cases h0 : pbb = 0
    · subst h0; simp [movesFromSquaresF]
    · have hctz : BitBoard.ctz pbb < 64 := BitBoard.ctz_lt_64 pbb h0 hlt
      have hidx : (BitBoard.get_ls1b pbb).get_index = BitBoard.ctz pbb :=
        BitBoard.get_index_get_ls1b pbb h0
      have hval : (Square.of_index (BitBoard.get_ls1b pbb).get_index).val = BitBoard.ctz pbb := by
        rw [hidx, of_index_val _ hctz]
      have htlt : pieceTargets p (BitBoard.get_ls1b pbb) occ own opp < 2 ^ 64 :=
        pieceTargets_lt p _ occ own opp (by rw [hidx]; exact hctz)
      have hrle : BitBoard.reset_ls1b pbb ≤ fuel :=
        Nat.le_of_lt_succ (Nat.lt_of_lt_of_le (BitBoard.reset_lt pbb h0) hle)
      have hrlt : BitBoard.reset_ls1b pbb < 2 ^ 64 :=
        Nat.lt_of_le_of_lt (BitBoard.reset_le pbb) hlt
      obtain ⟨ihmem, ihpw⟩ := ih (BitBoard.reset_ls1b pbb) hrle hrlt
      obtain ⟨gmem, gpw⟩ :=
        genMoveListF_facts (Square.of_index (BitBoard.get_ls1b pbb).get_index) p opp
          (pieceTargets p (BitBoard.get_ls1b pbb) occ own opp)
          (pieceTargets p (BitBoard.get_ls1b pbb) occ own opp) le_rfl htlt
      simp only [movesFromSquaresF, if_neg h0, genMoveList]
      constructor
      · intro m hm
        rcases List.mem_append.mp hm with hm | hm
        · obtain ⟨h1, h2, _⟩ := gmem m hm
          refine ⟨h2, ?_⟩
          rw [h1, hval]
          exact (BitBoard.ctz_spec pbb h0).1
        · obtain ⟨h1, h2⟩ := ihmem m hm
          refine ⟨h1, ?_⟩
          rw [BitBoard.reset_testBit pbb h0] at h2
          by_cases hc : m.get_from.val = BitBoard.ctz pbb
          · rw [if_pos hc] at h2; exact absurd h2 (by simp)
          · rwa [if_neg hc] at h2
      · rw [List.pairwise_append]
        refine ⟨?_, ihpw, ?_⟩
        · refine gpw.imp_of_mem fun {m1 m2} hm1 hm2 hto => ?_
          exact Or.inr ⟨(gmem m1 hm1).1.trans (gmem m2 hm2).1.symm, hto⟩
        · intro m1 hm1 m2 hm2
          left
          rw [(gmem m1 hm1).1, hval]
          exact BitBoard.reset_testBit_gt pbb h0 _ ((ihmem m2 hm2).2)

/-! ### Rank-major packing: bit-level characterization of `packBits` -/

/-- Little-endian value of a list of bits. -/
def bitsVal : List Nat → Nat
  | [] => 0
  | b :: t => b + 2 * bitsVal t

/-- 256-ary little-endian value of a list of byte values. -/
def bytesVal : List Nat → Nat
  | [] => 0
  | v :: t => v + 256 * bytesVal t

lemma enumFrom_shift_foldl (line : List Nat) :
    ∀ k acc, (List.enumFrom k line).foldl (fun acc p => acc + (p.2 <<< p.1)) acc =
      acc + 2 ^ k * bitsVal line := by
  induction line with
  | nil => intro k acc; simp [bitsVal]
  | cons b t ih =>
    intro k acc
    show (List.foldl _ (acc + (b <<< k)) (List.enumFrom (k + 1) t)) = _
    rw [ih (k + 1) (acc + (b <<< k)), Nat.shiftLeft_eq, bitsVal, pow_succ]
    ring

lemma lineVal_eq (line : List Nat) : lineVal line = bitsVal line := by
  have h := enumFrom_shift_foldl line 0 0
  simpa [lineVal, List.enum] using h

lemma enumFrom_shift8_foldl (vs : List Nat) :
    ∀ k acc, (List.enumFrom k vs).foldl (fun acc p => acc + (p.2 <<< (p.1 * 8))) acc =
      acc + 2 ^ (8 * k) * bytesVal vs := by
  induction vs with
  | nil => intro k acc; simp [bytesVal]
  | cons v t ih =>
    intro k acc
    show (List.foldl _ (acc + (v <<< (k * 8))) (List.enumFrom (k + 1) t)) = _
    rw [ih (k + 1) (acc + (v <<< (k * 8))), Nat.shiftLeft_eq, bytesVal]
    have h8 : (2 : Nat) ^ (8 * (k + 1)) = 2 ^ (8 * k) * 256 := by
      rw [Nat.mul_succ, pow_add]; norm_num
    have hk8 : (2 : Nat) ^ (k * 8) = 2 ^ (8 * k) := by rw [Nat.mul_comm]
    rw [h8, hk8]
    ring

lemma packBits_eq (l : List Nat) :
    packBits l = bytesVal ((chunks8 l).map lineVal).reverse := by
  have h := enumFrom_shift8_foldl (((chunks8 l).map lineVal).reverse) 0 0
  simpa [packBits, List.enum] using h

lemma bitsVal_lt (line : List Nat) (h : ∀ x ∈ line, x ≤ 1) :
    bitsVal line < 2 ^ line.length := by
  induction line with
  | nil => simp [bitsVal]
  | cons b t ih =>
    have hb : b ≤ 1 := h b (List.mem_cons_self b t)
    have ht := ih fun x hx => h x (List.mem_cons_of_mem b hx)
    have : (2 : Nat) ^ (b :: t).length = 2 * 2 ^ t.length := by
      rw [List.length_cons, pow_succ]; ring
    rw [bitsVal, this]
    omega

lemma bitsVal_testBit (line : List Nat) (h : ∀ x ∈ line, x ≤ 1) :
    ∀ f, (bitsVal line).testBit f = decide (line.getD f 0 = 1) := by
  induction line with
  | nil => intro f; simp [bitsVal, Nat.zero_testBit, List.getD]
  | cons b t ih =>
    intro f
    have hb : b ≤ 1 := h b (List.mem_cons_self b t)
    have htail := ih fun x hx => h x (List.mem_cons_of_mem b hx)
    cases f with
    | zero =>
      have hmod : (b + 2 * bitsVal t) % 2 = b := by omega
      simp [bitsVal, Nat.testBit_zero, hmod, List.getD_cons_zero]
    | succ i =>
      have hdiv : (b + 2 * bitsVal t) / 2 = bitsVal t := by omega
      rw [List.getD_cons_succ]
      show (bitsVal (b :: t)).testBit (i + 1) = _
      rw [bitsVal, Nat.testBit_succ, hdiv, htail i]

lemma testBit_lo_of_lt (v m f : Nat) (hv : v < 256) (hf : f < 8) :
    (v + 256 * m).testBit f = v.testBit f := by
  have h256 : (256 : Nat) = 2 ^ f * 2 ^ (8 - f) := by
    rw [← pow_add, show f + (8 - f) = 8 by omega]
    norm_num
  have hdiv : (v + 256 * m) / 2 ^ f = v / 2 ^ f + 2 ^ (8 - f) * m := by
    rw [h256, Nat.mul_assoc]
    exact Nat.add_mul_div_left v _ (Nat.pos_pow_of_pos f (by omega))
  obtain ⟨c, hc⟩ : ∃ c, 2 ^ (8 - f) = 2 * c := ⟨2 ^ (7 - f), by rw [← pow_succ']; congr 1; omega⟩
  have hiff : ((v + 256 * m) / 2 ^ f % 2 = 1) ↔ (v / 2 ^ f % 2 = 1) := by
    rw [hdiv, hc, Nat.mul_assoc]
    omega
  simp [Nat.testBit_to_div_mod, hiff]

lemma testBit_hi_of_lt (v m j : Nat) (hv : v < 256) :
    (v + 256 * m).testBit (8 + j) = m.testBit j := by
  have hdiv : (v + 256 * m) / 2 ^ (8 + j) = m / 2 ^ j := by
    rw [pow_add, ← Nat.div_div_eq_div_mul]
    congr 1
    have : (v + 256 * m) / 2 ^ 8 = v / 2 ^ 8 + m := Nat.add_mul_div_left v m (by norm_num)
    rw [this, Nat.div_eq_of_lt (by omega)]
    omega
  simp [Nat.testBit_to_div_mod, hdiv]

lemma bytesVal_testBit (vs : List Nat) (h : ∀ v ∈ vs, v < 256) :
    ∀ r f, f < 8 → (bytesVal vs).testBit (r * 8 + f) = (vs.getD r 0).testBit f := by
  induction vs with
  | nil => intro r f _; simp [bytesVal, Nat.zero_testBit, List.getD]
  | cons v t ih =>
    intro r f hf
    have hv : v < 256 := h v (List.mem_cons_self v t)
    have htail := ih fun x hx => h x (List.mem_cons_of_mem v hx)
    cases r with
    | zero =>
      rw [List.getD_cons_zero]
      show (bytesVal (v :: t)).testBit (0 * 8 + f) = _
      rw [bytesVal]
      simpa using testBit_lo_of_lt v (bytesVal t) f hv hf
    | succ s =>
      rw [List.getD_cons_succ]
      have harith : (s + 1) * 8 + f = 8 + (s * 8 + f) := by ring
      show (bytesVal (v :: t)).testBit ((s + 1) * 8 + f) = _
      rw [bytesVal, harith, testBit_hi_of_lt v (bytesVal t) _ hv, htail s f hf]

lemma chunks8F_getD {α : Type} :
    ∀ fuel (l : List α) i, l.length ≤ fuel →
      (chunks8F fuel l).getD i [] = (l.drop (8 * i)).take 8 := by
  intro fuel
  induction fuel with
  | zero =>
    intro l i hle
    have : l = [] := List.eq_nil_of_length_eq_zero (by omega)
    subst this
    simp [chunks8F, List.getD]
  | succ fuel ih =>
    intro l i hle
    cases l with
    | nil => simp [chunks8F, List.getD]
    | cons x xs =>
      cases i with
      | zero => simp [chunks8F, List.getD_cons_zero]
      | succ j =>
        show (chunks8F fuel (xs.drop 7)).getD j [] = _
        rw [ih (xs.drop 7) j
          (by simp only [List.length_cons] at hle; simp [List.length_drop]; omega)]
        rw [List.drop_drop]
        have h1 : 8 * (j + 1) = (8 * j + 7) + 1 := by ring
        have h2 : 7 + 8 * j = 8 * j + 7 := by ring
        rw [h1, h2, List.drop_succ_cons]

lemma chunks8_getD {α : Type} (l : List α) (i : Nat) :
    (chunks8 l).getD i [] = (l.drop (8 * i)).take 8 :=
  chunks8F_getD l.length l i le_rfl

lemma chunks8F_length {α : Type} :
    ∀ fuel (l : List α) n, l.length = 8 * n → l.length ≤ fuel →
      (chunks8F fuel l).length = n := by
  intro fuel
  induction fuel with
  | zero =>
    intro l n h8 hle
    have : l = [] := List.eq_nil_of_length_eq_zero (by omega)
    subst this
    simp [chunks8F] at h8 ⊢
    omega
  | succ fuel ih =>
    intro l n h8 hle
    cases l with
    | nil =>
      simp [chunks8F] at h8 ⊢
      omega
    | cons x xs =>
      obtain ⟨m, rfl⟩ : ∃ m, n = m + 1 := ⟨n - 1, by simp at h8; omega⟩
      simp only [List.length_cons] at h8 hle
      show (chunks8F fuel (xs.drop 7)).length + 1 = m + 1
      rw [ih (xs.drop 7) m (by simp [List.length_drop]; omega)
        (by simp [List.length_drop]; omega)]

lemma chunks8_length {α : Type} (l : List α) (h : l.length = 64) :
    (chunks8 l).length = 8 :=
  chunks8F_length l.length l 8 (by omega) le_rfl

lemma chunks8F_mem {α : Type} :
    ∀ fuel (l : List α) c, c ∈ chunks8F fuel l → c.length ≤ 8 ∧ ∀ x ∈ c, x ∈ l := by
  intro fuel
  induction fuel with
  | zero => intro l c hc; simp [chunks8F] at hc
  | succ fuel ih =>
    intro l c hc
    cases l with
    | nil => simp [chunks8F] at hc
    | cons x xs =>
      rcases List.mem_cons.mp hc with h | h
      · subst h
        refine ⟨by simp [List.length_take], fun y hy => (List.take_sublist 8 _).subset hy⟩
      · obtain ⟨h1, h2⟩ := ih (xs.drop 7) c h
        exact ⟨h1, fun y hy => List.mem_cons_of_mem x ((List.drop_sublist 7 xs).subset (h2 y hy))⟩

lemma packBits_testBit (l : List Nat) (h01 : ∀ x ∈ l, x ≤ 1) (hlen : l.length = 64)
    (r f : Nat) (hr : r < 8) (hf : f < 8) :
    (packBits l).testBit (r * 8 + f) = decide (l.getD ((7 - r) * 8 + f) 0 = 1) := by
  rw [packBits_eq]
  have hchunk_facts : ∀ c ∈ chunks8 l, c.length ≤ 8 ∧ ∀ x ∈ c, x ∈ l :=
    fun c hc => chunks8F_mem l.length l c hc
  have hvs256 : ∀ v ∈ ((chunks8 l).map lineVal).reverse, v < 256 := by
    intro v hv
    rw [List.mem_reverse] at hv
    obtain ⟨c, hc, rfl⟩ := List.mem_map.mp hv
    obtain ⟨hclen, hcmem⟩ := hchunk_facts c hc
    rw [lineVal_eq]
    calc bitsVal c < 2 ^ c.length := bitsVal_lt c fun x hx => h01 x (hcmem x hx)
      _ ≤ 2 ^ 8 := Nat.pow_le_pow_right (by omega) hclen
  rw [bytesVal_testBit _ hvs256 r f hf]
  have hmaplen : ((chunks8 l).map lineVal).length = 8 := by
    rw [List.length_map, chunks8_length l hlen]
  have hrev : ((chunks8 l).map lineVal).reverse.getD r 0 =
      ((chunks8 l).map lineVal).getD (7 - r) 0 := by
    rw [List.getD_eq_getElem?_getD, List.getD_eq_getElem?_getD,
      List.getElem?_reverse (by omega : r < ((chunks8 l).map lineVal).length),
      show ((chunks8 l).map lineVal).length - 1 - r = 7 - r by omega]
  rw [hrev]
  have hidx : 7 - r < ((chunks8 l).map lineVal).length := by omega
  have hget : ((chunks8 l).map lineVal).getD (7 - r) 0 =
      lineVal ((chunks8 l).getD (7 - r) []) := by
    rw [List.getD_eq_getElem?_getD, List.getElem?_eq_getElem hidx, List.getElem_map]
    rw [List.getD_eq_getElem?_getD,
      List.getElem?_eq_getElem (by rw [List.length_map] at hidx; exact hidx)]
    rfl
  rw [hget, chunks8_getD, lineVal_eq]
  set c := (l.drop (8 * (7 - r))).take 8 with hc
  have hcsub : ∀ x ∈ c, x ∈ l := fun x hx =>
    (List.drop_sublist _ _).subset ((List.take_sublist _ _).subset hx)
  rw [bitsVal_testBit c (fun x hx => h01 x (hcsub x hx)) f]
  have hcd : c.getD f 0 = l.getD ((7 - r) * 8 + f) 0 := by
    rw [hc, List.getD_eq_getElem?_getD, List.getD_eq_getElem?_getD,
      List.getElem?_take, if_pos hf, List.getElem?_drop]
    congr 2
    ring
  rw [hcd]

/-! ### Square parsing -/

/-- The 64 valid coordinates in canonical (upper-case) form: the upper-cased
textual form (file letter then rank digit) of every square. -/
def validCoordsUpper : List String :=
  (List.finRange 64).map fun s => upperStr (Square.text s)

lemma validCoordsUpper_eq :
    validCoordsUpper =
      ["A1", "B1", "C1", "D1", "E1", "F1", "G1", "H1", "A2", "B2", "C2", "D2", "E2", "F2", "G2", "H2", "A3", "B3", "C3", "D3", "E3", "F3", "G3", "H3", "A4", "B4", "C4", "D4", "E4", "F4", "G4", "H4", "A5", "B5", "C5", "D5", "E5", "F5", "G5", "H5", "A6", "B6", "C6", "D6", "E6", "F6", "G6", "H6", "A7", "B7", "C7", "D7", "E7", "F7", "G7", "H7", "A8", "B8", "C8", "D8", "E8", "F8", "G8", "H8"] := by decide

lemma try_from_isSome (v : String) :
    (Square.try_from v).isSome ↔ upperStr v ∈ validCoordsUpper := by
  rw [validCoordsUpper_eq]
  unfold Square.try_from
  dsimp only
  by_cases h0 : upperStr v = "A1"
  · rw [if_pos h0]
    exact iff_of_true rfl (by rw [h0]; decide)
  rw [if_neg h0]
  by_cases h1 : upperStr v = "B1"
  · rw [if_pos h1]
    exact iff_of_true rfl (by rw [h1]; decide)
  rw [if_neg h1]
  by_cases h2 : upperStr v = "C1"
  · rw [if_pos h2]
    exact iff_of_true rfl (by rw [h2]; decide)
  rw [if_neg h2]
  by_cases h3 : upperStr v = "D1"
  · rw [if_pos h3]
    exact iff_of_true rfl (by rw [h3]; decide)
  rw [if_neg h3]
  by_cases h4 : upperStr v = "E1"
  · rw [if_pos h4]
    exact iff_of_true rfl (by rw [h4]; decide)
  rw [if_neg h4]
  by_cases h5 : upperStr v = "F1"
  · rw [if_pos h5]
    exact iff_of_true rfl (by rw [h5]; decide)
  rw [if_neg h5]
  by_cases h6 : upperStr v = "G1"
  · rw [if_pos h6]
    exact iff_of_true rfl (by rw [h6]; decide)
  rw [if_neg h6]
  by_cases h7 : upperStr v = "H1"
  · rw [if_pos h7]
    exact iff_of_true rfl (by rw [h7]; decide)
  rw [if_neg h7]
  by_cases h8 : upperStr v = "A2"
  · rw [if_pos h8]
    exact iff_of_true rfl (by rw [h8]; decide)
  rw [if_neg h8]
  by_cases h9 : upperStr v = "B2"
  · rw [if_pos h9]
    exact iff_of_true rfl (by rw [h9]; decide)
  rw [if_neg h9]
  by_cases h10 : upperStr v = "C2"
  · rw [if_pos h10]
    exact iff_of_true rfl (by rw [h10]; decide)
  rw [if_neg h10]
  by_cases h11 : upperStr v = "D2"
  · rw [if_pos h11]
    exact iff_of_true rfl (by rw [h11]; decide)
  rw [if_neg h11]
  by_cases h12 : upperStr v = "E2"
  · rw [if_pos h12]
    exact iff_of_true rfl (by rw [h12]; decide)
  rw [if_neg h12]
  by_cases h13 : upperStr v = "F2"
  · rw [if_pos h13]
    exact iff_of_true rfl (by rw [h13]; decide)
  rw [if_neg h13]
  by_cases h14 : upperStr v = "G2"
  · rw [if_pos h14]
    exact iff_of_true rfl (by rw [h14]; decide)
  rw [if_neg h14]
  by_cases h15 : upperStr v = "H2"
  · rw [if_pos h15]
    exact iff_of_true rfl (by rw [h15]; decide)
  rw [if_neg h15]
  by_cases h16 : upperStr v = "A3"
  · rw [if_pos h16]
    exact iff_of_true rfl (by rw [h16]; decide)
  rw [if_neg h16]
  by_cases h17 : upperStr v = "B3"
  · rw [if_pos h17]
    exact iff_of_true rfl (by rw [h17]; decide)
  rw [if_neg h17]
  by_cases h18 : upperStr v = "C3"
  · rw [if_pos h18]
    exact iff_of_true rfl (by rw [h18]; decide)
  rw [if_neg h18]
  by_cases h19 : upperStr v = "D3"
  · rw [if_pos h19]
    exact iff_of_true rfl (by rw [h19]; decide)
  rw [if_neg h19]
  by_cases h20 : upperStr v = "E3"
  · rw [if_pos h20]
    exact iff_of_true rfl (by rw [h20]; decide)
  rw [if_neg h20]
  by_cases h21 : upperStr v = "F3"
  · rw [if_pos h21]
    exact iff_of_true rfl (by rw [h21]; decide)
  rw [if_neg h21]
  by_cases h22 : upperStr v = "G3"
  · rw [if_pos h22]
    exact iff_of_true rfl (by rw [h22]; decide)
  rw [if_neg h22]
  by_cases h23 : upperStr v = "H3"
  · rw [if_pos h23]
    exact iff_of_true rfl (by rw [h23]; decide)
  rw [if_neg h23]
  by_cases h24 : upperStr v = "A4"
  · rw [if_pos h24]
    exact iff_of_true rfl (by rw [h24]; decide)
  rw [if_neg h24]
  by_cases h25 : upperStr v = "B4"
  · rw [if_pos h25]
    exact iff_of_true rfl (by rw [h25]; decide)
  rw [if_neg h25]
  by_cases h26 : upperStr v = "C4"
  · rw [if_pos h26]
    exact iff_of_true rfl (by rw [h26]; decide)
  rw [if_neg h26]
  by_cases h27 : upperStr v = "D4"
  · rw [if_pos h27]
    exact iff_of_true rfl (by rw [h27]; decide)
  rw [if_neg h27]
  by_cases h28 : upperStr v = "E4"
  · rw [if_pos h28]
    exact iff_of_true rfl (by rw [h28]; decide)
  rw [if_neg h28]
  by_cases h29 : upperStr v = "F4"
  · rw [if_pos h29]
    exact iff_of_true rfl (by rw [h29]; decide)
  rw [if_neg h29]
  by_cases h30 : upperStr v = "G4"
  · rw [if_pos h30]
    exact iff_of_true rfl (by rw [h30]; decide)
  rw [if_neg h30]
  by_cases h31 : upperStr v = "H4"
  · rw [if_pos h31]
    exact iff_of_true rfl (by rw [h31]; decide)
  rw [if_neg h31]
  by_cases h32 : upperStr v = "A5"
  · rw [if_pos h32]
    exact iff_of_true rfl (by rw [h32]; decide)
  rw [if_neg h32]
  by_cases h33 : upperStr v = "B5"
  · rw [if_pos h33]
    exact iff_of_true rfl (by rw [h33]; decide)
  rw [if_neg h33]
  by_cases h34 : upperStr v = "C5"
  · rw [if_pos h34]
    exact iff_of_true rfl (by rw [h34]; decide)
  rw [if_neg h34]
  by_cases h35 : upperStr v = "D5"
  · rw [if_pos h35]
    exact iff_of_true rfl (by rw [h35]; decide)
  rw [if_neg h35]
  by_cases h36 : upperStr v = "E5"
  · rw [if_pos h36]
    exact iff_of_true rfl (by rw [h36]; decide)
  rw [if_neg h36]
  by_cases h37 : upperStr v = "F5"
  · rw [if_pos h37]
    exact iff_of_true rfl (by rw [h37]; decide)
  rw [if_neg h37]
  by_cases h38 : upperStr v = "G5"
  · rw [if_pos h38]
    exact iff_of_true rfl (by rw [h38]; decide)
  rw [if_neg h38]
  by_cases h39 : upperStr v = "H5"
  · rw [if_pos h39]
    exact iff_of_true rfl (by rw [h39]; decide)
  rw [if_neg h39]
  by_cases h40 : upperStr v = "A6"
  · rw [if_pos h40]
    exact iff_of_true rfl (by rw [h40]; decide)
  rw [if_neg h40]
  by_cases h41 : upperStr v = "B6"
  · rw [if_pos h41]
    exact iff_of_true rfl (by rw [h41]; decide)
  rw [if_neg h41]
  by_cases h42 : upperStr v = "C6"
  · rw [if_pos h42]
    exact iff_of_true rfl (by rw [h42]; decide)
  rw [if_neg h42]
  by_cases h43 : upperStr v = "D6"
  · rw [if_pos h43]
    exact iff_of_true rfl (by rw [h43]; decide)
  rw [if_neg h43]
  by_cases h44 : upperStr v = "E6"
  · rw [if_pos h44]
    exact iff_of_true rfl (by rw [h44]; decide)
  rw [if_neg h44]
  by_cases h45 : upperStr v = "F6"
  · rw [if_pos h45]
    exact iff_of_true rfl (by rw [h45]; decide)
  rw [if_neg h45]
  by_cases h46 : upperStr v = "G6"
  · rw [if_pos h46]
    exact iff_of_true rfl (by rw [h46]; decide)
  rw [if_neg h46]
  by_cases h47 : upperStr v = "H6"
  · rw [if_pos h47]
    exact iff_of_true rfl (by rw [h47]; decide)
  rw [if_neg h47]
  by_cases h48 : upperStr v = "A7"
  · rw [if_pos h48]
    exact iff_of_true rfl (by rw [h48]; decide)
  rw [if_neg h48]
  by_cases h49 : upperStr v = "B7"
  · rw [if_pos h49]
    exact iff_of_true rfl (by rw [h49]; decide)
  rw [if_neg h49]
  by_cases h50 : upperStr v = "C7"
  · rw [if_pos h50]
    exact iff_of_true rfl (by rw [h50]; decide)
  rw [if_neg h50]
  by_cases h51 : upperStr v = "D7"
  · rw [if_pos h51]
    exact iff_of_true rfl (by rw [h51]; decide)
  rw [if_neg h51]
  by_cases h52 : upperStr v = "E7"
  · rw [if_pos h52]
    exact iff_of_true rfl (by rw [h52]; decide)
  rw [if_neg h52]
  by_cases h53 : upperStr v = "F7"
  · rw [if_pos h53]
    exact iff_of_true rfl (by rw [h53]; decide)
  rw [if_neg h53]
  by_cases h54 : upperStr v = "G7"
  · rw [if_pos h54]
    exact iff_of_true rfl (by rw [h54]; decide)
  rw [if_neg h54]
  by_cases h55 : upperStr v = "H7"
  · rw [if_pos h55]
    exact iff_of_true rfl (by rw [h55]; decide)
  rw [if_neg h55]
  by_cases h56 : upperStr v = "A8"
  · rw [if_pos h56]
    exact iff_of_true rfl (by rw [h56]; decide)
  rw [if_neg h56]
  by_cases h57 : upperStr v = "B8"
  · rw [if_pos h57]
    exact iff_of_true rfl (by rw [h57]; decide)
  rw [if_neg h57]
  by_cases h58 : upperStr v = "C8"
  · rw [if_pos h58]
    exact iff_of_true rfl (by rw [h58]; decide)
  rw [if_neg h58]
  by_cases h59 : upperStr v = "D8"
  · rw [if_pos h59]
    exact iff_of_true rfl (by rw [h59]; decide)
  rw [if_neg h59]
  by_cases h60 : upperStr v = "E8"
  · rw [if_pos h60]
    exact iff_of_true rfl (by rw [h60]; decide)
  rw [if_neg h60]
  by_cases h61 : upperStr v = "F8"
  · rw [if_pos h61]
    exact iff_of_true rfl (by rw [h61]; decide)
  rw [if_neg h61]
  by_cases h62 : upperStr v = "G8"
  · rw [if_pos h62]
    exact iff_of_true rfl (by rw [h62]; decide)
  rw [if_neg h62]
  by_cases h63 : upperStr v = "H8"
  · rw [if_pos h63]
    exact iff_of_true rfl (by rw [h63]; decide)
  rw [if_neg h63]
  refine iff_of_false (by simp) ?_
  simp only [List.mem_cons, List.not_mem_nil, or_false]
  rintro (h|h|h|h|h|h|h|h|h|h|h|h|h|h|h|h|h|h|h|h|h|h|h|h|h|h|h|h|h|h|h|h|h|h|h|h|h|h|h|h|h|h|h|h|h|h|h|h|h|h|h|h|h|h|h|h|h|h|h|h|h|h|h|h) <;> contradiction

lemma try_from_some_text (v : String) (s : Square) :
    Square.try_from v = some s → upperStr v = upperStr (Square.text s) := by
  unfold Square.try_from
  dsimp only
  by_cases h0 : upperStr v = "A1"
  · rw [if_pos h0]
    intro h
    obtain rfl := Option.some.inj h
    rw [h0]
    decide
  rw [if_neg h0]
  by_cases h1 : upperStr v = "B1"
  · rw [if_pos h1]
    intro h
    obtain rfl := Option.some.inj h
    rw [h1]
    decide
  rw [if_neg h1]
  by_cases h2 : upperStr v = "C1"
  · rw [if_pos h2]
    intro h
    obtain rfl := Option.some.inj h
    rw [h2]
    decide
  rw [if_neg h2]
  by_cases h3 : upperStr v = "D1"
  · rw [if_pos h3]
    intro h
    obtain rfl := Option.some.inj h
    rw [h3]
    decide
  rw [if_neg h3]
  by_cases h4 : upperStr v = "E1"
  · rw [if_pos h4]
    intro h
    obtain rfl := Option.some.inj h
    rw [h4]
    decide
  rw [if_neg h4]
  by_cases h5 : upperStr v = "F1"
  · rw [if_pos h5]
    intro h
    obtain rfl := Option.some.inj h
    rw [h5]
    decide
  rw [if_neg h5]
  by_cases h6 : upperStr v = "G1"
  · rw [if_pos h6]
    intro h
    obtain rfl := Option.some.inj h
    rw [h6]
    decide
  rw [if_neg h6]
  by_cases h7 : upperStr v = "H1"
  · rw [if_pos h7]
    intro h
    obtain rfl := Option.some.inj h
    rw [h7]
    decide
  rw [if_neg h7]
  by_cases h8 : upperStr v = "A2"
  · rw [if_pos h8]
    intro h
    obtain rfl := Option.some.inj h
    rw [h8]
    decide
  rw [if_neg h8]
  by_cases h9 : upperStr v = "B2"
  · rw [if_pos h9]
    intro h
    obtain rfl := Option.some.inj h
    rw [h9]
    decide
  rw [if_neg h9]
  by_cases h10 : upperStr v = "C2"
  · rw [if_pos h10]
    intro h
    obtain rfl := Option.some.inj h
    rw [h10]
    decide
  rw [if_neg h10]
  by_cases h11 : upperStr v = "D2"
  · rw [if_pos h11]
    intro h
    obtain rfl := Option.some.inj h
    rw [h11]
    decide
  rw [if_neg h11]
  by_cases h12 : upperStr v = "E2"
  · rw [if_pos h12]
    intro h
    obtain rfl := Option.some.inj h
    rw [h12]
    decide
  rw [if_neg h12]
  by_cases h13 : upperStr v = "F2"
  · rw [if_pos h13]
    intro h
    obtain rfl := Option.some.inj h
    rw [h13]
    decide
  rw [if_neg h13]
  by_cases h14 : upperStr v = "G2"
  · rw [if_pos h14]
    intro h
    obtain rfl := Option.some.inj h
    rw [h14]
    decide
  rw [if_neg h14]
  by_cases h15 : upperStr v = "H2"
  · rw [if_pos h15]
    intro h
    obtain rfl := Option.some.inj h
    rw [h15]
    decide
  rw [if_neg h15]
  by_cases h16 : upperStr v = "A3"
  · rw [if_pos h16]
    intro h
    obtain rfl := Option.some.inj h
    rw [h16]
    decide
  rw [if_neg h16]
  by_cases h17 : upperStr v = "B3"
  · rw [if_pos h17]
    intro h
    obtain rfl := Option.some.inj h
    rw [h17]
    decide
  rw [if_neg h17]
  by_cases h18 : upperStr v = "C3"
  · rw [if_pos h18]
    intro h
    obtain rfl := Option.some.inj h
    rw [h18]
    decide
  rw [if_neg h18]
  by_cases h19 : upperStr v = "D3"
  · rw [if_pos h19]
    intro h
    obtain rfl := Option.some.inj h
    rw [h19]
    decide
  rw [if_neg h19]
  by_cases h20 : upperStr v = "E3"
  · rw [if_pos h20]
    intro h
    obtain rfl := Option.some.inj h
    rw [h20]
    decide
  rw [if_neg h20]
  by_cases h21 : upperStr v = "F3"
  · rw [if_pos h21]
    intro h
    obtain rfl := Option.some.inj h
    rw [h21]
    decide
  rw [if_neg h21]
  by_cases h22 : upperStr v = "G3"
  · rw [if_pos h22]
    intro h
    obtain rfl := Option.some.inj h
    rw [h22]
    decide
  rw [if_neg h22]
  by_cases h23 : upperStr v = "H3"
  · rw [if_pos h23]
    intro h
    obtain rfl := Option.some.inj h
    rw [h23]
    decide
  rw [if_neg h23]
  by_cases h24 : upperStr v = "A4"
  · rw [if_pos h24]
    intro h
    obtain rfl := Option.some.inj h
    rw [h24]
    decide
  rw [if_neg h24]
  by_cases h25 : upperStr v = "B4"
  · rw [if_pos h25]
    intro h
    obtain rfl := Option.some.inj h
    rw [h25]
    decide
  rw [if_neg h25]
  by_cases h26 : upperStr v = "C4"
  · rw [if_pos h26]
    intro h
    obtain rfl := Option.some.inj h
    rw [h26]
    decide
  rw [if_neg h26]
  by_cases h27 : upperStr v = "D4"
  · rw [if_pos h27]
    intro h
    obtain rfl := Option.some.inj h
    rw [h27]
    decide
  rw [if_neg h27]
  by_cases h28 : upperStr v = "E4"
  · rw [if_pos h28]
    intro h
    obtain rfl := Option.some.inj h
    rw [h28]
    decide
  rw [if_neg h28]
  by_cases h29 : upperStr v = "F4"
  · rw [if_pos h29]
    intro h
    obtain rfl := Option.some.inj h
    rw [h29]
    decide
  rw [if_neg h29]
  by_cases h30 : upperStr v = "G4"
  · rw [if_pos h30]
    intro h
    obtain rfl := Option.some.inj h
    rw [h30]
    decide
  rw [if_neg h30]
  by_cases h31 : upperStr v = "H4"
  · rw [if_pos h31]
    intro h
    obtain rfl := Option.some.inj h
    rw [h31]
    decide
  rw [if_neg h31]
  by_cases h32 : upperStr v = "A5"
  · rw [if_pos h32]
    intro h
    obtain rfl := Option.some.inj h
    rw [h32]
    decide
  rw [if_neg h32]
  by_cases h33 : upperStr v = "B5"
  · rw [if_pos h33]
    intro h
    obtain rfl := Option.some.inj h
    rw [h33]
    decide
  rw [if_neg h33]
  by_cases h34 : upperStr v = "C5"
  · rw [if_pos h34]
    intro h
    obtain rfl := Option.some.inj h
    rw [h34]
    decide
  rw [if_neg h34]
  by_cases h35 : upperStr v = "D5"
  · rw [if_pos h35]
    intro h
    obtain rfl := Option.some.inj h
    rw [h35]
    decide
  rw [if_neg h35]
  by_cases h36 : upperStr v = "E5"
  · rw [if_pos h36]
    intro h
    obtain rfl := Option.some.inj h
    rw [h36]
    decide
  rw [if_neg h36]
  by_cases h37 : upperStr v = "F5"
  · rw [if_pos h37]
    intro h
    obtain rfl := Option.some.inj h
    rw [h37]
    decide
  rw [if_neg h37]
  by_cases h38 : upperStr v = "G5"
  · rw [if_pos h38]
    intro h
    obtain rfl := Option.some.inj h
    rw [h38]
    decide
  rw [if_neg h38]
  by_cases h39 : upperStr v = "H5"
  · rw [if_pos h39]
    intro h
    obtain rfl := Option.some.inj h
    rw [h39]
    decide
  rw [if_neg h39]
  by_cases h40 : upperStr v = "A6"
  · rw [if_pos h40]
    intro h
    obtain rfl := Option.some.inj h
    rw [h40]
    decide
  rw [if_neg h40]
  by_cases h41 : upperStr v = "B6"
  · rw [if_pos h41]
    intro h
    obtain rfl := Option.some.inj h
    rw [h41]
    decide
  rw [if_neg h41]
  by_cases h42 : upperStr v = "C6"
  · rw [if_pos h42]
    intro h
    obtain rfl := Option.some.inj h
    rw [h42]
    decide
  rw [if_neg h42]
  by_cases h43 : upperStr v = "D6"
  · rw [if_pos h43]
    intro h
    obtain rfl := Option.some.inj h
    rw [h43]
    decide
  rw [if_neg h43]
  by_cases h44 : upperStr v = "E6"
  · rw [if_pos h44]
    intro h
    obtain rfl := Option.some.inj h
    rw [h44]
    decide
  rw [if_neg h44]
  by_cases h45 : upperStr v = "F6"
  · rw [if_pos h45]
    intro h
    obtain rfl := Option.some.inj h
    rw [h45]
    decide
  rw [if_neg h45]
  by_cases h46 : upperStr v = "G6"
  · rw [if_pos h46]
    intro h
    obtain rfl := Option.some.inj h
    rw [h46]
    decide
  rw [if_neg h46]
  by_cases h47 : upperStr v = "H6"
  · rw [if_pos h47]
    intro h
    obtain rfl := Option.some.inj h
    rw [h47]
    decide
  rw [if_neg h47]
  by_cases h48 : upperStr v = "A7"
  · rw [if_pos h48]
    intro h
    obtain rfl := Option.some.inj h
    rw [h48]
    decide
  rw [if_neg h48]
  by_cases h49 : upperStr v = "B7"
  · rw [if_pos h49]
    intro h
    obtain rfl := Option.some.inj h
    rw [h49]
    decide
  rw [if_neg h49]
  by_cases h50 : upperStr v = "C7"
  · rw [if_pos h50]
    intro h
    obtain rfl := Option.some.inj h
    rw [h50]
    decide
  rw [if_neg h50]
  by_cases h51 : upperStr v = "D7"
  · rw [if_pos h51]
    intro h
    obtain rfl := Option.some.inj h
    rw [h51]
    decide
  rw [if_neg h51]
  by_cases h52 : upperStr v = "E7"
  · rw [if_pos h52]
    intro h
    obtain rfl := Option.some.inj h
    rw [h52]
    decide
  rw [if_neg h52]
  by_cases h53 : upperStr v = "F7"
  · rw [if_pos h53]
    intro h
    obtain rfl := Option.some.inj h
    rw [h53]
    decide
  rw [if_neg h53]
  by_cases h54 : upperStr v = "G7"
  · rw [if_pos h54]
    intro h
    obtain rfl := Option.some.inj h
    rw [h54]
    decide
  rw [if_neg h54]
  by_cases h55 : upperStr v = "H7"
  · rw [if_pos h55]
    intro h
    obtain rfl := Option.some.inj h
    rw [h55]
    decide
  rw [if_neg h55]
  by_cases h56 : upperStr v = "A8"
  · rw [if_pos h56]
    intro h
    obtain rfl := Option.some.inj h
    rw [h56]
    decide
  rw [if_neg h56]
  by_cases h57 : upperStr v = "B8"
  · rw [if_pos h57]
    intro h
    obtain rfl := Option.some.inj h
    rw [h57]
    decide
  rw [if_neg h57]
  by_cases h58 : upperStr v = "C8"
  · rw [if_pos h58]
    intro h
    obtain rfl := Option.some.inj h
    rw [h58]
    decide
  rw [if_neg h58]
  by_cases h59 : upperStr v = "D8"
  · rw [if_pos h59]
    intro h
    obtain rfl := Option.some.inj h
    rw [h59]
    decide
  rw [if_neg h59]
  by_cases h60 : upperStr v = "E8"
  · rw [if_pos h60]
    intro h
    obtain rfl := Option.some.inj h
    rw [h60]
    decide
  rw [if_neg h60]
  by_cases h61 : upperStr v = "F8"
  · rw [if_pos h61]
    intro h
    obtain rfl := Option.some.inj h
    rw [h61]
    decide
  rw [if_neg h61]
  by_cases h62 : upperStr v = "G8"
  · rw [if_pos h62]
    intro h
    obtain rfl := Option.some.inj h
    rw [h62]
    decide
  rw [if_neg h62]
  by_cases h63 : upperStr v = "H8"
  · rw [if_pos h63]
    intro h
    obtain rfl := Option.some.inj h
    rw [h63]
    decide
  rw [if_neg h63]
  intro h
  exact Option.noConfusion h

/-! ### Remaining helper lemmas -/

lemma zeroOne_le_one (c : Char) (x : Nat) (h : zeroOne c = some x) : x ≤ 1 := by
  unfold zeroOne at h
  split_ifs at h <;> (injection h with h2; omega)

lemma is_set_eq_testBit (b j : Nat) : BitBoard.is_set b j = b.testBit j := by
  unfold BitBoard.is_set
  rw [Nat.shiftLeft_eq, one_mul, Nat.and_two_pow]
  cases h : b.testBit j
  · simp [h]
  · have h2 : (2 : Nat) ^ j ≠ 0 := by positivity
    simp [h, h2]

/-! ### The claims -/

/-- C9: constructing a bit-set from 0/1 text ignores every character other
than `'0'` and `'1'`, fails unless exactly 64 such symbols remain, and on
success reads the symbols rank 8 first: bit `r*8+f` of the result is set iff
symbol number `(7-r)*8+f` is `'1'`. -/
theorem c9_from_str_spec :
    (∀ s t : String, s.toList.filterMap zeroOne = t.toList.filterMap zeroOne →
      BitBoard.from_str s = BitBoard.from_str t) ∧
    (∀ s : String,
      (BitBoard.from_str s).isSome ↔ (s.toList.filterMap zeroOne).length = 64) ∧
    (∀ (s : String) (b : BitBoard), BitBoard.from_str s = some b →
      ∀ r f : Nat, r < 8 → f < 8 →
        (b.testBit (r * 8 + f) = true ↔
          (s.toList.filterMap zeroOne).getD ((7 - r) * 8 + f) 0 = 1)) := by
  refine ⟨?_, ?_, ?_⟩
  · intro s t h
    unfold BitBoard.from_str
    rw [h]
  · intro s
    by_cases h : (s.toList.filterMap zeroOne).length = 64 <;>
      simp [BitBoard.from_str, h]
  · intro s b hb r f hr hf
    unfold BitBoard.from_str at hb
    dsimp only at hb
    split at hb
    · next h64 =>
      obtain rfl := Option.some.inj hb
      have h01 : ∀ x ∈ s.toList.filterMap zeroOne, x ≤ 1 := by
        intro x hx
        obtain ⟨c, _, hc⟩ := List.mem_filterMap.mp hx
        exact zeroOne_le_one c x hc
      rw [packBits_testBit _ h01 h64 r f hr hf]
      simp
    · exact Option.noConfusion hb

/-- Witness for C9 at a concrete 64-symbol text whose only `'1'` is the last
symbol (rank 1, file h). -/
theorem c9_from_str_witness :
    Nat.testBit 128 (0 * 8 + 7) = true ↔
      ((String.mk (List.replicate 63 '0' ++ ['1'])).toList.filterMap zeroOne).getD
        ((7 - 0) * 8 + 7) 0 = 1 :=
  c9_from_str_spec.2.2 (String.mk (List.replicate 63 '0' ++ ['1'])) 128 (by decide) 0 7
    (by decide) (by decide)

/-- C8: square parsing succeeds exactly on (case-insensitive) valid
coordinates, a successful parse returns the square whose textual form
matches the input case-insensitively, and parsing the textual form of any
square returns that square. -/
theorem c8_square_parse_spec :
    (∀ v : String, (Square.try_from v).isSome ↔ upperStr v ∈ validCoordsUpper) ∧
    (∀ (v : String) (s : Square),
      Square.try_from v = some s → upperStr v = upperStr (Square.text s)) ∧
    (∀ s : Square, Square.try_from (Square.text s) = some s) :=
  ⟨try_from_isSome, try_from_some_text, by decide⟩

/-- Witness for C8: parsing the lower-case text `e4` yields square 28, whose
textual form matches the input case-insensitively. -/
theorem c8_square_parse_witness : upperStr "e4" = upperStr (Square.text 28) :=
  c8_square_parse_spec.2.1 "e4" 28 (by decide)

/-- C10: on a 64-bit value, `set` with an index below 64 makes `is_set` true
at that index, leaves every other bit unchanged, stays within 64 bits, and
the shift `1 <<< i` cannot overflow; for an index of 64 or more the shifted
value no longer fits in a `u64`. -/
theorem c10_set_is_set_spec (b : BitBoard) (hb : b < 2 ^ 64) (i : Nat) (hi : i < 64) :
    BitBoard.is_set (BitBoard.set b i) i = true ∧
    (∀ j, j ≠ i → BitBoard.is_set (BitBoard.set b i) j = BitBoard.is_set b j) ∧
    BitBoard.set b i < 2 ^ 64 ∧
    (1 : Nat) <<< i < 2 ^ 64 ∧
    (∀ k, 64 ≤ k → ¬ ((1 : Nat) <<< k < 2 ^ 64)) := by
  refine ⟨?_, ?_, ?_, shift_one_lt i hi, ?_⟩
  · rw [is_set_eq_testBit]
    unfold BitBoard.set
    rw [Nat.testBit_or, Nat.shiftLeft_eq, one_mul, Nat.testBit_two_pow]
    simp
  · intro j hj
    rw [is_set_eq_testBit, is_set_eq_testBit]
    unfold BitBoard.set
    rw [Nat.testBit_or, Nat.shiftLeft_eq, one_mul, Nat.testBit_two_pow]
    have hij : ¬ i = j := fun h => hj h.symm
    simp [hij]
  · exact Nat.or_lt_two_pow hb (shift_one_lt i hi)
  · intro k hk
    rw [Nat.shiftLeft_eq, one_mul]
    exact Nat.not_lt.mpr (Nat.pow_le_pow_right (by omega) hk)

/-- Witness for C10 at `b = 5`, `i = 3`. -/
theorem c10_set_is_set_witness :
    BitBoard.is_set (BitBoard.set 5 3) 3 = true ∧
    (∀ j, j ≠ 3 → BitBoard.is_set (BitBoard.set 5 3) j = BitBoard.is_set 5 j) ∧
    BitBoard.set 5 3 < 2 ^ 64 ∧
    (1 : Nat) <<< 3 < 2 ^ 64 ∧
    (∀ k, 64 ≤ k → ¬ ((1 : Nat) <<< k < 2 ^ 64)) :=
  c10_set_is_set_spec 5 (by norm_num) 3 (by norm_num)

/-- C7: `update_by_move` takes its fatal (`unimplemented!`) path exactly when
the move's promotion field is present; with no promotion it always returns
an updated board. -/
theorem c7_update_fails_iff_promotion (b : Board) (mv : Move) :
    b.update_by_move mv = none ↔ mv.get_promotion.isSome = true := by
  cases h : mv.get_promotion <;> simp [Board.update_by_move, h]

/-- C1: `empty`, `initial_board` and a decoded position all satisfy the
board invariants, but applying a generator-produced, promotion-free capture
can break them: on `8/8/8/8/8/1p6/P7/8 w - - 0 1` the generated capture
a2xb3 leaves a board whose occupancy no longer equals the union of the piece
sets (the capture scan of `update_by_move` walks all twelve bit-sets and
strips the destination bit from the mover's own, already-updated set
first). -/
theorem c1_generated_capture_breaks_invariants :
    Board.empty.invariants ∧
    Board.initial_board.invariants ∧
    Board.from_fen "8/8/8/8/8/1p6/P7/8 w - - 0 1" = some bugBoard0 ∧
    bugBoard0.invariants ∧
    bugMove ∈ bugBoard0.generate_moves ∧
    bugMove.get_promotion = none ∧
    bugBoard0.update_by_move bugMove = some bugBoard1 ∧
    ¬ bugBoard1.invariants := by decide

/-- C2: on a board satisfying the invariants whose destination square holds
exactly one opponent piece (the black pawn on b3), `update_by_move` of the
generated capture a2xb3 does **not** remove the destination bit from the
captured piece's bit-set (the black pawn set still holds b3); it removes it
from the mover's own set (the white pawn vanishes) while still clearing the
opponent aggregate — the scan is not restricted to the non-mover's color. -/
theorem c2_capture_scan_removes_wrong_bitset :
    bugBoard0.invariants ∧
    bugMove.is_capture = true ∧
    bugMove.get_promotion = none ∧
    bugBoard0.pieces Piece.BlackPawn.index &&& BitBoard.from_square bugMove.get_to ≠ 0 ∧
    bugBoard0.update_by_move bugMove = some bugBoard1 ∧
    bugBoard1.pieces Piece.BlackPawn.index = bugBoard0.pieces Piece.BlackPawn.index ∧
    BitBoard.is_set (bugBoard1.pieces Piece.BlackPawn.index) 17 = true ∧
    bugBoard1.pieces Piece.WhitePawn.index = 0 ∧
    BitBoard.is_set (bugBoard1.all Color.Black.index) 17 = false := by decide

/-- C3: the quiet pushes e2-e4, e4-e5, e5-e6 followed by the generated
capture e6xd7 — all promotion-free moves produced by the generator along the
way — lead from the initial position to a board `b` with
`decode (encode b) ≠ b` (the capture corrupted the aggregates, and decoding
recomputes them from the piece sets). -/
theorem c3_roundtrip_fails_after_generated_capture :
    movesAllGenerated Board.initial_board c3Moves = true ∧
    (∀ m ∈ c3Moves, m.get_promotion = none) ∧
    c3Moves.foldlM Board.update_by_move Board.initial_board = some c3Board ∧
    Board.from_fen (Board.as_fen c3Board) ≠ some c3Board := by decide

/-- C4: on the initial position the generator returns exactly the 20 moves —
per pawn its single and double push (source squares ascending, single push
first), then the four knight moves — and none of them is flagged as a
capture. -/
theorem c4_initial_twenty_moves :
    Board.initial_board.generate_moves =
      [Move.quiet 8 16 Piece.WhitePawn, Move.quiet 8 24 Piece.WhitePawn,
       Move.quiet 9 17 Piece.WhitePawn, Move.quiet 9 25 Piece.WhitePawn,
       Move.quiet 10 18 Piece.WhitePawn, Move.quiet 10 26 Piece.WhitePawn,
       Move.quiet 11 19 Piece.WhitePawn, Move.quiet 11 27 Piece.WhitePawn,
       Move.quiet 12 20 Piece.WhitePawn, Move.quiet 12 28 Piece.WhitePawn,
       Move.quiet 13 21 Piece.WhitePawn, Move.quiet 13 29 Piece.WhitePawn,
       Move.quiet 14 22 Piece.WhitePawn, Move.quiet 14 30 Piece.WhitePawn,
       Move.quiet 15 23 Piece.WhitePawn, Move.quiet 15 31 Piece.WhitePawn,
       Move.quiet 1 16 Piece.WhiteKnight, Move.quiet 1 18 Piece.WhiteKnight,
       Move.quiet 6 21 Piece.WhiteKnight, Move.quiet 6 23 Piece.WhiteKnight] ∧
    (∀ m ∈ Board.initial_board.generate_moves, m.is_capture = false) := by decide

/-- Counterexample for C5: listing the white knight before the white pawn
makes the generator emit the knight's moves first, so the output is not
sorted by ascending piece-identity ordinal — the order depends on the
caller's listing order. -/
theorem c5_caller_order_counterexample :
    ¬ List.Pairwise claimOrder
        (Board.initial_board.generate_moves_for [Piece.WhiteKnight, Piece.WhitePawn]) := by
  decide

/-- C5 (amended): for every board whose piece sets fit in 64 bits and every
requested subset, the move list is the concatenation, **in the caller's
listing order**, of the per-identity lists of the identities matching the
side to move; within one identity the moves are sorted by ascending source
square and then ascending destination square. -/
theorem c5_generate_moves_for_order (b : Board) (ps : List Piece)
    (hb : ∀ i, b.pieces i < 2 ^ 64) :
    b.generate_moves_for ps =
      (ps.filter fun p => b.get_side_to_move == p.get_color).flatMap
        (fun p => b.movesForPiece p) ∧
    ∀ p : Piece,
      (∀ m ∈ b.movesForPiece p, m.get_piece = p) ∧
      List.Pairwise moveLt (b.movesForPiece p) := by
  refine ⟨rfl, fun p => ?_⟩
  obtain ⟨hmem, hpw⟩ :=
    movesFromSquaresF_facts p b.occupied (b.all b.get_side_to_move.index)
      (b.all b.opposite_side.index) (b.pieces p.index) (b.pieces p.index) le_rfl
      (hb p.index)
  exact ⟨fun m hm => (hmem m hm).1, hpw⟩

/-- Witness for C5 (amended) at the initial board and the white pawn. -/
theorem c5_generate_moves_for_order_witness :
    List.Pairwise moveLt (Board.initial_board.movesForPiece Piece.WhitePawn) :=
  ((c5_generate_moves_for_order Board.initial_board [Piece.WhitePawn]
    (by decide)).2 Piece.WhitePawn).2

/-- C6: on the decoded position `2k5/8/8/8/8/8/2Pp4/2K5 w - - 0 1`,
generating for the white king yields, in order, quiet(c1,b1), quiet(c1,d1),
quiet(c1,b2) and capture(c1,d2), only the last flagged as a capture. -/
theorem c6_white_king_scenario :
    Board.from_fen "2k5/8/8/8/8/8/2Pp4/2K5 w - - 0 1" = some c6Board ∧
    c6Board.generate_moves_for [Piece.WhiteKing] =
      [Move.quiet 2 1 Piece.WhiteKing, Move.quiet 2 3 Piece.WhiteKing,
       Move.quiet 2 9 Piece.WhiteKing, Move.capture 2 11 Piece.WhiteKing] := by decide
